import Mathlib

/-!
Shallow embedding of the Milvus segment-metadata core:

* the coordinator-side segment catalog (`internal/datacoord/meta.go`), with
  its flush-commit, state-change, channel-drop and compaction operations, and
* the datanode-side segment replica (`segment_replica.go`), with its
  new/normal/flushed/compacted buckets and per-segment primary-key tracking.

Go maps are embedded as association lists (Go map iteration order is not
deterministic; the embedding fixes insertion order, and all theorems that
depend on ordering only use lookup-level facts).  Pointer mutation is embedded
as functional record update; `Clone` of a segment record is the identity on
these immutable values.  The external transactional KV store is embedded as an
explicit store value plus a fault oracle (`fuel`): a backing-store call fails
exactly when the fuel is exhausted.
-/

namespace MilvusModel

/-- The error values surfaced by catalog/replica operations.  Go `error` is an
interface; the embedding enumerates the errors the modelled operations can
actually produce.  `persistFailure` stands for any error returned by the
backing store. -/
inductive MErr where
  | persistFailure : MErr
  | mismatchCollection : Int → MErr
  | invalidCompactedFrom : List Int → MErr
  deriving DecidableEq

/-- Association-list lookup: first binding of the key, if any.  This is the
embedding of Go map indexing. -/
def alookup {κ α : Type} [DecidableEq κ] : List (κ × α) → κ → Option α
  | [], _ => none
  | (k, v) :: rest, key => if k = key then some v else alookup rest key

/-- Association-list insert-or-replace: the embedding of Go map assignment. -/
def aupsert {κ α : Type} [DecidableEq κ] : List (κ × α) → κ → α → List (κ × α)
  | [], key, v => [(key, v)]
  | (k, w) :: rest, key, v =>
      if k = key then (key, v) :: rest else (k, w) :: aupsert rest key v

/-- Association-list removal of the first binding of a key: the embedding of
Go `delete(m, key)`. -/
def aremove {κ α : Type} [DecidableEq κ] : List (κ × α) → κ → List (κ × α)
  | [], _ => []
  | (k, w) :: rest, key => if k = key then rest else (k, w) :: aremove rest key

/-- Key membership in an association list. -/
def acontains {κ α : Type} [DecidableEq κ] (l : List (κ × α)) (key : κ) : Bool :=
  (alookup l key).isSome

/-- A stream position (`internalpb.MsgPosition`), restricted to the fields the
modelled code reads: the message id bytes and the timestamp. -/
structure MsgPosition where
  msgID : List Nat
  timestamp : Nat
  deriving DecidableEq

/-- `GetTimestamp` on a possibly-nil position: Go proto getters return the
zero value on a nil receiver. -/
def optTimestamp : Option MsgPosition → Nat
  | none => 0
  | some p => p.timestamp

/-- `GetMsgID` on a possibly-nil position. -/
def optMsgID : Option MsgPosition → List Nat
  | none => []
  | some p => p.msgID

/-- Primary-key values (`storage.PrimaryKey`): an int64 key or a varchar key.
The `storage` package itself is not among the provided sources. -/
inductive PrimaryKey where
  | int64PK : Int → PrimaryKey
  | varCharPK : String → PrimaryKey
  deriving DecidableEq

/-- Modelled from the spec: `storage.PrimaryKey` comparison (the storage
package is not among the provided sources).  Per the spec, keys are "compared
under a single total order per type" and "mixing integer and string keys
within one segment is a caller error"; comparing keys of different types
yields `false`. -/
def pkGT : PrimaryKey → PrimaryKey → Bool
  | .int64PK a, .int64PK b => decide (b < a)
  | .varCharPK a, .varCharPK b => decide (b < a)
  | _, _ => false

/-- Modelled from the spec: `storage.PrimaryKey` less-than, dual of `pkGT`. -/
def pkLT : PrimaryKey → PrimaryKey → Bool
  | .int64PK a, .int64PK b => decide (a < b)
  | .varCharPK a, .varCharPK b => decide (a < b)
  | _, _ => false

/-- One entry added to the bloom filter: `Add` receives a byte slice,
`AddString` a string.  The external probabilistic filter is abstracted as the
list of entries added to it (its behaviour beyond membership of added entries
is outside this embedding). -/
inductive BloomEntry where
  | bytes : List Nat → BloomEntry
  | str : String → BloomEntry
  deriving DecidableEq

/-- `common.Endian.PutUint64` (little endian) of `uint64(pk)`. -/
def putUint64LE (v : Int) : List Nat :=
  let u : Nat := (v % (2 ^ 64)).toNat
  [u % 256, u / 256 % 256, u / 256 ^ 2 % 256, u / 256 ^ 3 % 256,
   u / 256 ^ 4 % 256, u / 256 ^ 5 % 256, u / 256 ^ 6 % 256, u / 256 ^ 7 % 256]

/-- The bloom-filter entry that `updatePKRange` adds for a key. -/
def bloomEntryOf : PrimaryKey → BloomEntry
  | .int64PK v => .bytes (putUint64LE v)
  | .varCharPK s => .str s

/-- `storage.FieldData`, restricted to the cases `updatePKRange` dispatches
on: int64 field data, string field data, and every other (unsupported)
field-data kind, which the `default` branch of the type switch ignores. -/
inductive FieldData where
  | int64Data : List Int → FieldData
  | stringData : List String → FieldData
  | otherData : FieldData
  deriving DecidableEq

/-- `datapb.SegmentStartPosition`. -/
structure SegmentStartPosition where
  segmentID : Int
  startPosition : Option MsgPosition
  deriving DecidableEq

namespace DataNode

/-- The datanode `Segment` (segment_replica.go), restricted to the fields the
modelled operations touch.  `isNew`/`isFlushed` are `atomic.Value` booleans in
the source; `pkFilter` is the list of entries added to the bloom filter. -/
structure Segment where
  collectionID : Int
  partitionID : Int
  segmentID : Int
  numRows : Int
  memorySize : Int
  isNew : Bool
  isFlushed : Bool
  channelName : String
  compactedTo : Int
  startPos : Option MsgPosition
  endPos : Option MsgPosition
  pkFilter : List BloomEntry
  minPK : Option PrimaryKey
  maxPK : Option PrimaryKey
  deriving DecidableEq

/-- `Segment.updatePk`: extends `[minPK, maxPK]` if the key lies outside the
current range.  The Go function returns an error value that is `nil` on every
path; the embedding therefore returns the updated segment only. -/
def Segment.updatePk (s : Segment) (pk : PrimaryKey) : Segment :=
  let s1 :=
    match s.minPK with
    | none => { s with minPK := some pk }
    | some mn => if pkGT mn pk then { s with minPK := some pk } else s
  match s1.maxPK with
  | none => { s1 with maxPK := some pk }
  | some mx => if pkLT mx pk then { s1 with maxPK := some pk } else s1

/-- One step of `updatePKRange`'s int64 loop: update the min/max range and add
the little-endian encoding of the key to the bloom filter. -/
def Segment.addInt64PK (s : Segment) (pk : Int) : Segment :=
  let s1 := s.updatePk (.int64PK pk)
  { s1 with pkFilter := s1.pkFilter ++ [.bytes (putUint64LE pk)] }

/-- One step of `updatePKRange`'s string loop: update the min/max range and
add the string to the bloom filter. -/
def Segment.addStringPK (s : Segment) (pk : String) : Segment :=
  let s1 := s.updatePk (.varCharPK pk)
  { s1 with pkFilter := s1.pkFilter ++ [.str pk] }

/-- `Segment.updatePKRange`: type switch over the incoming field data.  Int64
and string batches update range and filter per key; every other field-data
kind falls into the empty `default` branch.  All paths return a `nil`
error. -/
def Segment.updatePKRange (s : Segment) (ids : FieldData) : Segment × Option MErr :=
  match ids with
  | .int64Data pks => (pks.foldl Segment.addInt64PK s, none)
  | .stringData pks => (pks.foldl Segment.addStringPK s, none)
  | .otherData => (s, none)

/-- A sequence of `updatePKRange` calls (the returned error is `nil` on every
path, so only the segment threads through). -/
def applyPKBatches (s : Segment) (batches : List FieldData) : Segment :=
  batches.foldl (fun acc b => (acc.updatePKRange b).1) s

/-- The primary keys carried by one field-data batch. -/
def pkKeysOf : FieldData → List PrimaryKey
  | .int64Data d => d.map PrimaryKey.int64PK
  | .stringData d => d.map PrimaryKey.varCharPK
  | .otherData => []

/-- The replica's four segment buckets (`SegmentReplica`), keyed by segment
id.  The schema/meta-service fields take no part in the modelled
operations. -/
structure SegmentReplica where
  collectionID : Int
  newSegments : List (Int × Segment)
  normalSegments : List (Int × Segment)
  flushedSegments : List (Int × Segment)
  compactedSegments : List (Int × Segment)
  deriving DecidableEq

/-- `new2NormalSegment`: moves a segment from the new bucket to the normal
bucket, clearing `isNew`.  The source dereferences the bucket entry and is
only called with ids present in the new bucket; an absent id leaves the
replica unchanged in the embedding. -/
def SegmentReplica.new2NormalSegment (r : SegmentReplica) (segID : Int) : SegmentReplica :=
  match alookup r.newSegments segID with
  | none => r
  | some seg =>
      { r with
        normalSegments := aupsert r.normalSegments segID { seg with isNew := false },
        newSegments := aremove r.newSegments segID }

/-- `listNewSegmentsStartPositions`: collects every new segment's start
position and transitions each collected segment to the normal bucket in the
same pass. -/
def SegmentReplica.listNewSegmentsStartPositions (r : SegmentReplica) :
    SegmentReplica × List SegmentStartPosition :=
  r.newSegments.foldl
    (fun acc p =>
      (acc.1.new2NormalSegment p.1,
       acc.2 ++ [{ segmentID := p.1, startPosition := p.2.startPos }]))
    (r, [])

/-- `hasSegment`: membership in the new/normal buckets, and additionally the
flushed bucket when `countFlushed` is set.  The compacted bucket is never
consulted. -/
def SegmentReplica.hasSegment (r : SegmentReplica) (segID : Int) (countFlushed : Bool) : Bool :=
  acontains r.newSegments segID || acontains r.normalSegments segID ||
    (countFlushed && acontains r.flushedSegments segID)

/-- `mergeFlushedSegments`: validates the collection id and that every
`compactedFrom` id is a flushed (and not new/normal) segment, then moves each
source from the flushed bucket to the compacted bucket tagged with
`compactedTo`, and stores the new segment in the flushed bucket only when it
carries rows. -/
def SegmentReplica.mergeFlushedSegments (r : SegmentReplica) (seg : Segment)
    (planID : Int) (compactedFrom : List Int) : SegmentReplica × Option MErr :=
  if seg.collectionID ≠ r.collectionID then
    (r, some (.mismatchCollection seg.collectionID))
  else
    let inValidSegments := compactedFrom.filter
      (fun id => !(r.hasSegment id true) || r.hasSegment id false)
    if 0 < inValidSegments.length then
      (r, some (.invalidCompactedFrom inValidSegments))
    else
      let r1 := compactedFrom.foldl
        (fun acc id =>
          match alookup acc.flushedSegments id with
          | none => acc
          | some s =>
              { acc with
                compactedSegments := aupsert acc.compactedSegments id
                  { s with compactedTo := seg.segmentID },
                flushedSegments := aremove acc.flushedSegments id })
        r
      if 0 < seg.numRows then
        ({ r1 with
            flushedSegments := aupsert r1.flushedSegments seg.segmentID
              { seg with isNew := false, isFlushed := true } }, none)
      else (r1, none)

/-- A concrete flushed segment, used as witness input. -/
def wSegFlushed : Segment :=
  { collectionID := 7, partitionID := 2, segmentID := 10, numRows := 3, memorySize := 0,
    isNew := false, isFlushed := true, channelName := "ch", compactedTo := 0,
    startPos := none, endPos := none, pkFilter := [], minPK := none, maxPK := none }

/-- A concrete compaction-output segment, used as witness input. -/
def wSegNew : Segment :=
  { collectionID := 7, partitionID := 2, segmentID := 20, numRows := 1, memorySize := 0,
    isNew := false, isFlushed := false, channelName := "ch", compactedTo := 0,
    startPos := none, endPos := none, pkFilter := [], minPK := none, maxPK := none }

/-- A concrete replica holding one flushed segment, used as witness input. -/
def wReplica : SegmentReplica :=
  { collectionID := 7, newSegments := [], normalSegments := [],
    flushedSegments := [(10, wSegFlushed)], compactedSegments := [] }

end DataNode

namespace DataCoord

/-- `commonpb.SegmentState`. -/
inductive SegmentState where
  | stateNone
  | notExist
  | growing
  | sealed
  | flushed
  | flushing
  | dropped
  | importing
  deriving DecidableEq

/-- `datapb.Binlog`, restricted to the log path (the only field the modelled
code inspects). -/
structure Binlog where
  logPath : String
  deriving DecidableEq

/-- `datapb.FieldBinlog`: the ordered set of log files of one field. -/
structure FieldBinlog where
  fieldID : Int
  binlogs : List Binlog
  deriving DecidableEq

/-- `datapb.CheckPoint`.  The code reads `cp.Position.Timestamp` through a
plain pointer dereference, so the position is embedded as non-optional. -/
structure CheckPoint where
  segmentID : Int
  position : MsgPosition
  numOfRows : Int
  deriving DecidableEq

/-- The catalog's per-segment record: the persisted `datapb.SegmentInfo`
fields the modelled code touches, plus the wrapper's in-memory-only
`currRows`. -/
structure SegmentInfo where
  id : Int
  collectionID : Int
  partitionID : Int
  insertChannel : String
  numOfRows : Int
  state : SegmentState
  maxRowNum : Int
  droppedAt : Nat
  startPosition : Option MsgPosition
  dmlPosition : Option MsgPosition
  binlogs : List FieldBinlog
  statslogs : List FieldBinlog
  deltalogs : List FieldBinlog
  createdByCompaction : Bool
  compactionFrom : List Int
  isImporting : Bool
  currRows : Int
  deriving DecidableEq

/-- `isSegmentHealthy` on a non-nil segment (nil receivers are handled at the
call sites, where the embedding matches on the `Option`). -/
def isSegmentHealthy (s : SegmentInfo) : Bool :=
  s.state ≠ SegmentState.stateNone && s.state ≠ SegmentState.notExist &&
    s.state ≠ SegmentState.dropped

/-- The local `getFieldBinlogs` closure: first entry with the given field id,
if any. -/
def getFieldBinlogs (id : Int) (binlogs : List FieldBinlog) : Option FieldBinlog :=
  binlogs.find? (fun b => b.fieldID = id)

/-- Appends an incoming fragment's binlogs onto the first entry with the same
field id (the in-place `fieldBinlogs.Binlogs = append(...)` of the source). -/
def extendFieldBinlog : List FieldBinlog → FieldBinlog → List FieldBinlog
  | [], _ => []
  | b :: rest, t =>
      if b.fieldID = t.fieldID then { b with binlogs := b.binlogs ++ t.binlogs } :: rest
      else b :: extendFieldBinlog rest t

/-- The per-field merge loop shared by `UpdateFlushSegmentsInfo` and
`mergeDropSegment`: a fragment for an unseen field id is appended whole; a
fragment for a present field id has its binlogs appended onto that entry.
No path-level deduplication is performed. -/
def mergeFieldBinlogs (curr : List FieldBinlog) (incoming : List FieldBinlog) :
    List FieldBinlog :=
  incoming.foldl
    (fun acc t =>
      match getFieldBinlogs t.fieldID acc with
      | none => acc ++ [t]
      | some _ => extendFieldBinlog acc t)
    curr

/-- Modelled from the spec: the in-memory segment index (`SegmentsInfo`,
segment_info.go, which is not among the provided sources).  The spec describes
it as the map from segment id to segment info, mutated under a copy-on-write
discipline — each mutation produces a new value that replaces the old one in
the index. -/
structure SegmentsInfo where
  segments : List (Int × SegmentInfo)
  deriving DecidableEq

/-- Modelled from the spec: `SegmentsInfo.GetSegment` — map lookup. -/
def SegmentsInfo.getSegment (si : SegmentsInfo) (id : Int) : Option SegmentInfo :=
  alookup si.segments id

/-- Modelled from the spec: `SegmentsInfo.SetSegment` — map assignment. -/
def SegmentsInfo.setSegment (si : SegmentsInfo) (id : Int) (s : SegmentInfo) : SegmentsInfo :=
  ⟨aupsert si.segments id s⟩

/-- Modelled from the spec: `SegmentsInfo.SetState` — replaces the stored
record with a copy carrying the new state, when the id is present. -/
def SegmentsInfo.setState (si : SegmentsInfo) (id : Int) (st : SegmentState) : SegmentsInfo :=
  match alookup si.segments id with
  | none => si
  | some s => ⟨aupsert si.segments id { s with state := st }⟩

/-- Modelled from the spec: `SegmentsInfo.SetRowCount` — replaces the stored
record with a copy carrying the new row count, when the id is present. -/
def SegmentsInfo.setRowCount (si : SegmentsInfo) (id : Int) (rowCount : Int) : SegmentsInfo :=
  match alookup si.segments id with
  | none => si
  | some s => ⟨aupsert si.segments id { s with numOfRows := rowCount }⟩

/-- The persisted state of the backing store: the segment records written
through the catalog, and the channel-removal markers. -/
structure KVStore where
  segs : List (Int × SegmentInfo)
  removedChannels : List String
  deriving DecidableEq

/-- Persisting a batch of segment records (`AlterSegments`,
`SaveDroppedSegmentsInBatch`, `AddSegment`): each record is stored under its
segment id, atomically as one transaction. -/
def saveSegments (kv : KVStore) (xs : List SegmentInfo) : KVStore :=
  { kv with segs := xs.foldl (fun l s => aupsert l s.id s) kv.segs }

/-- `MarkChannelDeleted`: stores the channel-removal marker (idempotent
key write). -/
def markChannelDeleted (kv : KVStore) (channel : String) : KVStore :=
  if channel ∈ kv.removedChannels then kv
  else { kv with removedChannels := kv.removedChannels ++ [channel] }

/-- The catalog wrapper `meta`: in-memory segment index, the backing store's
persisted state, and the fault oracle for backing-store calls. -/
structure Meta where
  segments : SegmentsInfo
  kv : KVStore
  fuel : Nat
  deriving DecidableEq

/-- One call into the transactional backing store.  The spec treats each
persistence call as an atomic transaction that either fully succeeds or fails
with an error; `fuel` decides which: a call fails exactly when the fuel is
exhausted, and otherwise applies its write atomically. -/
def catalogCall (m : Meta) (upd : KVStore → KVStore) : Meta × Option MErr :=
  match m.fuel with
  | 0 => (m, some .persistFailure)
  | Nat.succ n => ({ m with kv := upd m.kv, fuel := n }, none)

/-- `meta.AddSegment`: persist the record, then mirror it in memory; a failed
persist is returned with the index untouched. -/
def Meta.addSegment (m : Meta) (segment : SegmentInfo) : Meta × Option MErr :=
  match catalogCall m (fun kv => saveSegments kv [segment]) with
  | (m1, some e) => (m1, some e)
  | (m1, none) =>
      ({ m1 with segments := m1.segments.setSegment segment.id segment }, none)

/-- `meta.SetState`: unknown ids return nil; otherwise the record is cloned
with the target state, persisted only when the clone is still healthy, and the
in-memory state is then updated (also when no persist happened). -/
def Meta.setState (m : Meta) (segmentID : Int) (targetState : SegmentState) :
    Meta × Option MErr :=
  match m.segments.getSegment segmentID with
  | none => (m, none)
  | some curSegInfo =>
      let clonedSegment := { curSegInfo with state := targetState }
      let step :=
        if isSegmentHealthy clonedSegment then
          catalogCall m (fun kv => saveSegments kv [clonedSegment])
        else (m, none)
      match step with
      | (m1, some e) => (m1, some e)
      | (m1, none) =>
          ({ m1 with segments := m1.segments.setState segmentID targetState }, none)

/-- The clone-and-mutate chain `UpdateFlushSegmentsInfo` applies to the target
segment: optionally mark flushing, optionally mark dropped with the drop time,
merge the binlog fragments per field (no path deduplication), overwrite the
statslogs when the incoming batch is non-empty, merge the deltalog fragments
per field. -/
def flushClone (segment : SegmentInfo) (flushed dropped : Bool)
    (binlogs statslogs deltalogs : List FieldBinlog) (now : Nat) : SegmentInfo :=
  let clonedSegment := segment
  let clonedSegment :=
    if flushed then { clonedSegment with state := SegmentState.flushing }
    else clonedSegment
  let clonedSegment :=
    if dropped then { clonedSegment with state := SegmentState.dropped, droppedAt := now }
    else clonedSegment
  let clonedSegment :=
    { clonedSegment with binlogs := mergeFieldBinlogs clonedSegment.binlogs binlogs }
  let clonedSegment :=
    if 0 < statslogs.length then { clonedSegment with statslogs := statslogs }
    else clonedSegment
  { clonedSegment with deltalogs := mergeFieldBinlogs clonedSegment.deltalogs deltalogs }

/-- The paths recorded for one field across a `FieldBinlog` list, in order. -/
def fieldPaths (f : Int) : List FieldBinlog → List String
  | [] => []
  | b :: rest =>
      (if b.fieldID = f then b.binlogs.map Binlog.logPath else []) ++ fieldPaths f rest

/-- The local `getClonedSegment` closure of `UpdateFlushSegmentsInfo`: the
already-modified copy if present, else a clone of the stored healthy
segment. -/
def getClonedSegment (m : Meta) (mods : List (Int × SegmentInfo)) (segmentID : Int) :
    Option SegmentInfo :=
  match alookup mods segmentID with
  | some s => some s
  | none =>
      match m.segments.getSegment segmentID with
      | some s => if isSegmentHealthy s then some s else none
      | none => none

/-- The start-position loop of `UpdateFlushSegmentsInfo`: positions with an
empty message id are skipped, unknown/unhealthy segments are skipped, the rest
get their start position overwritten. -/
def applyStartPositions (m : Meta) (mods : List (Int × SegmentInfo))
    (startPositions : List SegmentStartPosition) : List (Int × SegmentInfo) :=
  startPositions.foldl
    (fun ms pos =>
      if (optMsgID pos.startPosition).length = 0 then ms
      else
        match getClonedSegment m ms pos.segmentID with
        | none => ms
        | some s => aupsert ms pos.segmentID { s with startPosition := pos.startPosition })
    mods

/-- The checkpoint loop of `UpdateFlushSegmentsInfo`: a checkpoint no newer
than the stored dml position is skipped silently; otherwise the dml position
and row count are overwritten. -/
def applyCheckpoints (m : Meta) (mods : List (Int × SegmentInfo))
    (checkpoints : List CheckPoint) : List (Int × SegmentInfo) :=
  checkpoints.foldl
    (fun ms cp =>
      match getClonedSegment m ms cp.segmentID with
      | none => ms
      | some s =>
          match s.dmlPosition with
          | some d =>
              if cp.position.timestamp ≤ d.timestamp then ms
              else aupsert ms cp.segmentID
                { s with dmlPosition := some cp.position, numOfRows := cp.numOfRows }
          | none =>
              aupsert ms cp.segmentID
                { s with dmlPosition := some cp.position, numOfRows := cp.numOfRows })
    mods

/-- The batch `UpdateFlushSegmentsInfo` persists: the cloned target segment,
then any start-position and checkpoint updates folded in. -/
def flushModSegments (m : Meta) (segmentID : Int) (cloned : SegmentInfo)
    (checkpoints : List CheckPoint) (startPositions : List SegmentStartPosition) :
    List (Int × SegmentInfo) :=
  applyCheckpoints m (applyStartPositions m (aupsert [] segmentID cloned) startPositions)
    checkpoints

/-- `meta.UpdateFlushSegmentsInfo`: the flush-commit path.  When `importing`
is set the in-memory row count is first replaced by `currRows` (the source
dereferences the segment before the not-found check, so an unknown id with
`importing` set panics in Go; the embedding falls through to the not-found
return).  The target segment is cloned, optionally marked flushing/dropped,
its binlogs and deltalogs merged per field without path deduplication, its
statslogs overwritten when the incoming batch is non-empty; start positions
and checkpoints of further segments are folded in; the batch is persisted in
one call and only afterwards mirrored into the in-memory index. -/
def Meta.updateFlushSegmentsInfo (m : Meta) (segmentID : Int)
    (flushed dropped importing : Bool)
    (binlogs statslogs deltalogs : List FieldBinlog)
    (checkpoints : List CheckPoint) (startPositions : List SegmentStartPosition)
    (now : Nat) : Meta × Option MErr :=
  let m :=
    if importing then
      match m.segments.getSegment segmentID with
      | some seg => { m with segments := m.segments.setRowCount segmentID seg.currRows }
      | none => m
    else m
  match m.segments.getSegment segmentID with
  | none => (m, none)
  | some segment =>
      if isSegmentHealthy segment then
        let modSegments := flushModSegments m segmentID
          (flushClone segment flushed dropped binlogs statslogs deltalogs now)
          checkpoints startPositions
        match catalogCall m (fun kv => saveSegments kv (modSegments.map Prod.snd)) with
        | (m1, some e) => (m1, some e)
        | (m1, none) =>
            ({ m1 with
                segments := modSegments.foldl (fun si p => si.setSegment p.1 p.2) m1.segments },
             none)
      else (m, none)

/-- `meta.mergeDropSegment`: merges a flushed-at-drop segment's data onto a
clone of the stored segment, forcing the Dropped state; unknown or unhealthy
stored segments yield nothing (this is what makes a repeated channel drop
idempotent). -/
def Meta.mergeDropSegment (m : Meta) (seg2Drop : SegmentInfo) : Option SegmentInfo :=
  match m.segments.getSegment seg2Drop.id with
  | none => none
  | some segment =>
      if isSegmentHealthy segment then
        let clonedSegment := { segment with state := SegmentState.dropped }
        let clonedSegment :=
          { clonedSegment with binlogs := mergeFieldBinlogs clonedSegment.binlogs seg2Drop.binlogs }
        let clonedSegment :=
          { clonedSegment with
              statslogs := mergeFieldBinlogs clonedSegment.statslogs seg2Drop.statslogs }
        let clonedSegment :=
          { clonedSegment with deltalogs := clonedSegment.deltalogs ++ seg2Drop.deltalogs }
        let clonedSegment :=
          match seg2Drop.startPosition with
          | some sp => { clonedSegment with startPosition := some sp }
          | none => clonedSegment
        let clonedSegment :=
          match seg2Drop.dmlPosition with
          | some dp => { clonedSegment with dmlPosition := some dp }
          | none => clonedSegment
        some { clonedSegment with currRows := seg2Drop.currRows }
      else none

/-- `meta.batchSaveDropSegments`: persists the dropped-segment batch, then the
channel-removal marker — the marker is always the last write — and only after
both succeed mirrors the batch into the in-memory index. -/
def Meta.batchSaveDropSegments (m : Meta) (channel : String)
    (modSegments : List (Int × SegmentInfo)) : Meta × Option MErr :=
  match catalogCall m (fun kv => saveSegments kv (modSegments.map Prod.snd)) with
  | (m1, some e) => (m1, some e)
  | (m1, none) =>
      match catalogCall m1 (fun kv => markChannelDeleted kv channel) with
      | (m2, some e) => (m2, some e)
      | (m2, none) =>
          ({ m2 with
              segments := modSegments.foldl (fun si p => si.setSegment p.1 p.2) m2.segments },
           none)

/-- The batch `UpdateDropChannelSegmentInfo` persists: the merged
flushed-at-drop segments, then every other tracked segment of the channel
cloned into the Dropped state. -/
def dropModSegments (m : Meta) (channel : String) (segments : List SegmentInfo) :
    List (Int × SegmentInfo) :=
  let modSegments := segments.foldl
    (fun ms seg2Drop =>
      match m.mergeDropSegment seg2Drop with
      | some s => aupsert ms seg2Drop.id s
      | none => ms)
    []
  m.segments.segments.foldl
    (fun ms p =>
      if p.2.insertChannel ≠ channel then ms
      else if acontains ms p.2.id then ms
      else aupsert ms p.2.id { p.2 with state := SegmentState.dropped })
    modSegments

/-- `meta.UpdateDropChannelSegmentInfo`: merges the explicitly flushed-at-drop
segments, force-drops every other tracked segment of the channel, and saves
everything through `batchSaveDropSegments`. -/
def Meta.updateDropChannelSegmentInfo (m : Meta) (channel : String)
    (segments : List SegmentInfo) : Meta × Option MErr :=
  m.batchSaveDropSegments channel (dropModSegments m channel segments)

/-- `datapb.CompactionSegmentBinlogs`: one compaction source's log manifest
(only the segment id and deltalogs are read). -/
structure CompactionSegmentBinlogs where
  segmentID : Int
  deltalogs : List FieldBinlog
  deriving DecidableEq

/-- `datapb.CompactionResult`: the output of a compaction run. -/
structure CompactionResult where
  segmentID : Int
  numOfRows : Int
  insertLogs : List FieldBinlog
  field2StatslogPaths : List FieldBinlog
  deltalogs : List FieldBinlog
  deriving DecidableEq

/-- `meta.updateDeltalogs`: for each origin field manifest, drops the log
paths listed in a removal manifest of the same field id (via a path-keyed
map), and keeps the entry only if paths remain.  The `adds` parameter of the
source is never read. -/
def updateDeltalogs (origin removes adds : List FieldBinlog) : List FieldBinlog :=
  match origin with
  | [] => []
  | fbl :: rest =>
      let logs := fbl.binlogs.foldl (fun l d => aupsert l d.logPath d) ([] : List (String × Binlog))
      let logs := removes.foldl
        (fun l remove =>
          if remove.fieldID = fbl.fieldID then
            remove.binlogs.foldl (fun l2 rb => aremove l2 rb.logPath) l
          else l)
        logs
      let binlogs := logs.map Prod.snd
      (if 0 < binlogs.length then [{ fieldID := fbl.fieldID, binlogs := binlogs }] else [])
        ++ updateDeltalogs rest removes adds

/-- The position-minimisation loop of `GetCompleteCompactionMeta` (shared by
the start and dml positions): keeps the candidate with the smallest timestamp,
with Go's nil-getter semantics. -/
def pickEarliest (cur : Option MsgPosition) (p : Option MsgPosition) : Option MsgPosition :=
  if cur.isNone || (p.isSome && optTimestamp p < optTimestamp cur) then p else cur

/-- `meta.GetCompleteCompactionMeta`: reads (and never writes) the index;
returns the pre-compaction snapshots of the found sources, the found sources
cloned and marked Dropped with the drop timestamp, and the new `Flushing`
segment assembled from the compaction result, the earliest positions across
the sources, the reconciled deltalogs and `compactionFrom`.  When no source is
found the source program indexes an empty slice (a Go panic); the embedding
returns `none` there. -/
def Meta.getCompleteCompactionMeta (m : Meta)
    (compactionLogs : List CompactionSegmentBinlogs) (result : CompactionResult)
    (now : Nat) :
    Meta × Option (List SegmentInfo × List SegmentInfo × SegmentInfo) :=
  let oldSegments := compactionLogs.foldl
    (fun acc cl =>
      match m.segments.getSegment cl.segmentID with
      | some segment => acc ++ [segment]
      | none => acc)
    []
  let modSegments := compactionLogs.foldl
    (fun acc cl =>
      match m.segments.getSegment cl.segmentID with
      | some segment =>
          acc ++ [{ segment with state := SegmentState.dropped, droppedAt := now }]
      | none => acc)
    []
  let dmlPosition := modSegments.foldl (fun cur s => pickEarliest cur s.dmlPosition) none
  let startPosition := modSegments.foldl (fun cur s => pickEarliest cur s.startPosition) none
  let originDeltalogs := modSegments.foldl (fun acc s => acc ++ s.deltalogs) []
  let deletedDeltalogs := compactionLogs.foldl (fun acc cl => acc ++ cl.deltalogs) []
  let newAddedDeltalogs := updateDeltalogs originDeltalogs deletedDeltalogs []
  let deltalogs := result.deltalogs ++ newAddedDeltalogs
  let compactionFrom := modSegments.map (fun s => s.id)
  match modSegments with
  | [] => (m, none)
  | first :: _ =>
      (m, some (oldSegments, modSegments,
        { id := result.segmentID
          collectionID := first.collectionID
          partitionID := first.partitionID
          insertChannel := first.insertChannel
          numOfRows := result.numOfRows
          state := SegmentState.flushing
          maxRowNum := first.maxRowNum
          droppedAt := 0
          startPosition := startPosition
          dmlPosition := dmlPosition
          binlogs := result.insertLogs
          statslogs := result.field2StatslogPaths
          deltalogs := deltalogs
          createdByCompaction := true
          compactionFrom := compactionFrom
          isImporting := false
          currRows := 0 }))

/-- `meta.alterInMemoryMetaAfterCompaction`: mirrors the compaction into the
in-memory index — every modified source is stored, and the new segment only
when it carries rows (empty merges produce no visible segment). -/
def Meta.alterInMemoryMetaAfterCompaction (m : Meta) (segmentCompactTo : SegmentInfo)
    (segmentsCompactFrom : List SegmentInfo) : Meta :=
  let m1 :=
    { m with
        segments := segmentsCompactFrom.foldl (fun si s => si.setSegment s.id s) m.segments }
  if 0 < segmentCompactTo.numOfRows then
    { m1 with
        segments := m1.segments.setSegment segmentCompactTo.id segmentCompactTo }
  else m1

/-- Well-formedness of the in-memory index: each record is stored under its
own id, and ids are unique (both hold for a Go map keyed by segment id). -/
def SegmentsWF (si : SegmentsInfo) : Prop :=
  (si.segments.map Prod.fst).Nodup ∧ ∀ p ∈ si.segments, (p.2 : SegmentInfo).id = p.1

/-- Well-formedness of a mutation batch produced by the channel-drop path:
each record is stored under its own id, ids are unique, and every record is in
the Dropped state. -/
def ModsWFD (ms : List (Int × SegmentInfo)) : Prop :=
  (ms.map Prod.fst).Nodup ∧
    ∀ p ∈ ms, (p.2 : SegmentInfo).id = p.1 ∧ (p.2 : SegmentInfo).state = SegmentState.dropped

/-- A concrete healthy segment whose buffered row count differs from its
stored row count, used as witness/counterexample input. -/
def wSegBase : SegmentInfo :=
  { id := 1, collectionID := 7, partitionID := 2, insertChannel := "ch", numOfRows := 3,
    state := SegmentState.growing, maxRowNum := 100, droppedAt := 0, startPosition := none,
    dmlPosition := none, binlogs := [], statslogs := [], deltalogs := [],
    createdByCompaction := false, compactionFrom := [], isImporting := false, currRows := 5 }

/-- A concrete catalog state, used as witness/counterexample input. -/
def wMeta (segs : List (Int × SegmentInfo)) (fuel : Nat) : Meta :=
  { segments := ⟨segs⟩, kv := ⟨[], []⟩, fuel := fuel }

/-- A flushed compaction source with positions and deltalogs (id 1), witness
input. -/
def wSegPos1 : SegmentInfo :=
  { wSegBase with
    id := 1,
    state := SegmentState.flushed,
    startPosition := some { msgID := [1], timestamp := 3 },
    dmlPosition := some { msgID := [1], timestamp := 5 },
    deltalogs := [{ fieldID := 5, binlogs := [{ logPath := "d1" }, { logPath := "d2" }] }] }

/-- A flushed compaction source with positions and deltalogs (id 2), witness
input. -/
def wSegPos2 : SegmentInfo :=
  { wSegBase with
    id := 2,
    state := SegmentState.flushed,
    startPosition := some { msgID := [2], timestamp := 6 },
    dmlPosition := some { msgID := [2], timestamp := 4 },
    deltalogs := [{ fieldID := 5, binlogs := [{ logPath := "d3" }] }] }

/-- A concrete pair of compaction log manifests, witness input. -/
def wCls6 : List CompactionSegmentBinlogs :=
  [{ segmentID := 1, deltalogs := [{ fieldID := 5, binlogs := [{ logPath := "d1" }] }] },
   { segmentID := 2, deltalogs := [] }]

/-- A concrete compaction result, witness input. -/
def wResult6 : CompactionResult :=
  { segmentID := 10, numOfRows := 7, insertLogs := [], field2StatslogPaths := [],
    deltalogs := [{ fieldID := 5, binlogs := [{ logPath := "dr" }] }] }

end DataCoord

/-! ### Theorems -/

theorem alookup_aupsert_self {κ α : Type} [DecidableEq κ]
    (l : List (κ × α)) (k : κ) (v : α) : alookup (aupsert l k v) k = some v := by
  induction l with
  | nil => simp [aupsert, alookup]
  | cons p rest ih =>
      obtain ⟨k', w⟩ := p
      by_cases h : k' = k
      · simp [aupsert, h, alookup]
      · simp [aupsert, h, alookup, ih]

theorem alookup_aupsert_ne {κ α : Type} [DecidableEq κ]
    (l : List (κ × α)) (k k' : κ) (v : α) (h : k ≠ k') :
    alookup (aupsert l k v) k' = alookup l k' := by
  induction l with
  | nil => simp [aupsert, alookup, h]
  | cons p rest ih =>
      obtain ⟨k₀, w⟩ := p
      by_cases h₀ : k₀ = k
      · subst h₀
        simp [aupsert, alookup, h, ih]
      · simp [aupsert, h₀, alookup, ih]

theorem aupsert_self {κ α : Type} [DecidableEq κ]
    (l : List (κ × α)) (k : κ) (v : α) (h : alookup l k = some v) :
    aupsert l k v = l := by
  induction l with
  | nil => simp [alookup] at h
  | cons p rest ih =>
      obtain ⟨k₀, w⟩ := p
      by_cases h₀ : k₀ = k
      · subst h₀
        simp [alookup] at h
        simp [aupsert, h]
      · simp [alookup, h₀] at h
        simp [aupsert, h₀, ih h]

theorem alookup_eq_none_of_not_mem_keys {κ α : Type} [DecidableEq κ]
    (l : List (κ × α)) (k : κ) (h : k ∉ l.map Prod.fst) : alookup l k = none := by
  induction l with
  | nil => simp [alookup]
  | cons p rest ih =>
      obtain ⟨k₀, w⟩ := p
      simp only [List.map_cons, List.mem_cons] at h
      push_neg at h
      simp only [alookup, if_neg (Ne.symm h.1)]
      exact ih h.2

theorem aremove_keys_subset {κ α : Type} [DecidableEq κ]
    (l : List (κ × α)) (k k' : κ) (h : k' ∈ (aremove l k).map Prod.fst) :
    k' ∈ l.map Prod.fst := by
  induction l with
  | nil => simp [aremove] at h
  | cons p rest ih =>
      obtain ⟨k₀, w⟩ := p
      by_cases h₀ : k₀ = k
      · rw [show aremove ((k₀, w) :: rest) k = if k₀ = k then rest else (k₀, w) :: aremove rest k
            from rfl, if_pos h₀] at h
        simp only [List.map_cons, List.mem_cons]
        exact Or.inr h
      · simp only [aremove, if_neg h₀, List.map_cons, List.mem_cons] at h ⊢
        rcases h with h | h
        · exact Or.inl h
        · exact Or.inr (ih h)

theorem alookup_aremove_self {κ α : Type} [DecidableEq κ]
    (l : List (κ × α)) (k : κ) (hnd : (l.map Prod.fst).Nodup) :
    alookup (aremove l k) k = none := by
  induction l with
  | nil => simp [aremove, alookup]
  | cons p rest ih =>
      obtain ⟨k₀, w⟩ := p
      simp only [List.map_cons, List.nodup_cons] at hnd
      by_cases h₀ : k₀ = k
      · subst h₀
        simp only [aremove, if_pos rfl]
        exact alookup_eq_none_of_not_mem_keys rest k₀ hnd.1
      · simp only [aremove, if_neg h₀, alookup, if_neg h₀]
        exact ih hnd.2

theorem alookup_aremove_ne {κ α : Type} [DecidableEq κ]
    (l : List (κ × α)) (k k' : κ) (h : k ≠ k') :
    alookup (aremove l k) k' = alookup l k' := by
  induction l with
  | nil => simp [aremove]
  | cons p rest ih =>
      obtain ⟨k₀, w⟩ := p
      by_cases h₀ : k₀ = k
      · subst h₀
        simp [aremove, alookup, h]
      · simp [aremove, h₀, alookup, ih]

theorem aupsert_cons {κ α : Type} [DecidableEq κ]
    (k₀ : κ) (w : α) (rest : List (κ × α)) (k : κ) (v : α) :
    aupsert ((k₀, w) :: rest) k v =
      if k₀ = k then (k, v) :: rest else (k₀, w) :: aupsert rest k v := rfl

theorem aupsert_keys_mem {κ α : Type} [DecidableEq κ]
    (l : List (κ × α)) (k : κ) (v : α) (k' : κ)
    (h : k' ∈ (aupsert l k v).map Prod.fst) : k' = k ∨ k' ∈ l.map Prod.fst := by
  induction l with
  | nil => simpa [aupsert] using h
  | cons p rest ih =>
      obtain ⟨k₀, w⟩ := p
      by_cases h₀ : k₀ = k
      · rw [aupsert_cons, if_pos h₀] at h
        simp only [List.map_cons, List.mem_cons] at h ⊢
        rcases h with h | h
        · exact Or.inl h
        · exact Or.inr (Or.inr h)
      · rw [aupsert_cons, if_neg h₀] at h
        simp only [List.map_cons, List.mem_cons] at h ⊢
        rcases h with h | h
        · exact Or.inr (Or.inl h)
        · rcases ih h with h | h
          · exact Or.inl h
          · exact Or.inr (Or.inr h)

theorem aupsert_keys_nodup {κ α : Type} [DecidableEq κ]
    (l : List (κ × α)) (k : κ) (v : α) (hnd : (l.map Prod.fst).Nodup) :
    ((aupsert l k v).map Prod.fst).Nodup := by
  induction l with
  | nil => simp [aupsert]
  | cons p rest ih =>
      obtain ⟨k₀, w⟩ := p
      simp only [List.map_cons, List.nodup_cons] at hnd
      by_cases h₀ : k₀ = k
      · rw [aupsert_cons, if_pos h₀]
        simp only [List.map_cons, List.nodup_cons]
        subst h₀
        exact hnd
      · rw [aupsert_cons, if_neg h₀]
        simp only [List.map_cons, List.nodup_cons]
        refine ⟨fun hm => ?_, ih hnd.2⟩
        rcases aupsert_keys_mem rest k v k₀ hm with h | h
        · exact h₀ h
        · exact hnd.1 h

/-- Lookup finds a pair that is a member, provided keys are nodup. -/
theorem alookup_of_mem {κ α : Type} [DecidableEq κ]
    (l : List (κ × α)) (k : κ) (v : α) (hnd : (l.map Prod.fst).Nodup)
    (hm : (k, v) ∈ l) : alookup l k = some v := by
  induction l with
  | nil => simp at hm
  | cons p rest ih =>
      obtain ⟨k₀, w⟩ := p
      simp only [List.map_cons, List.nodup_cons] at hnd
      rcases List.mem_cons.mp hm with h | h
      · have hk : k₀ = k := by
          have := congrArg Prod.fst h.symm
          simpa using this
        have hv : w = v := by
          have := congrArg Prod.snd h.symm
          simpa using this
        subst hk
        simp [alookup, hv]
      · have hk : k₀ ≠ k := by
          intro he
          subst he
          exact hnd.1 (List.mem_map.mpr ⟨(k₀, v), h, rfl⟩)
        simp [alookup, hk, ih hnd.2 h]

theorem mem_of_alookup {κ α : Type} [DecidableEq κ]
    (l : List (κ × α)) (k : κ) (v : α) (h : alookup l k = some v) : (k, v) ∈ l := by
  induction l with
  | nil => simp [alookup] at h
  | cons p rest ih =>
      obtain ⟨k₀, w⟩ := p
      by_cases h₀ : k₀ = k
      · rw [show alookup ((k₀, w) :: rest) k = if k₀ = k then some w else alookup rest k
            from rfl, if_pos h₀] at h
        subst h₀
        exact List.mem_cons.mpr (Or.inl (by rw [Option.some.injEq] at h; rw [h]))
      · rw [show alookup ((k₀, w) :: rest) k = if k₀ = k then some w else alookup rest k
            from rfl, if_neg h₀] at h
        exact List.mem_cons.mpr (Or.inr (ih h))

theorem aremove_map_fst_sublist {κ α : Type} [DecidableEq κ]
    (l : List (κ × α)) (k : κ) :
    List.Sublist ((aremove l k).map Prod.fst) (l.map Prod.fst) := by
  induction l with
  | nil => simp [aremove]
  | cons p rest ih =>
      obtain ⟨k₀, w⟩ := p
      by_cases h₀ : k₀ = k
      · rw [show aremove ((k₀, w) :: rest) k = if k₀ = k then rest else (k₀, w) :: aremove rest k
            from rfl, if_pos h₀]
        exact (List.Sublist.refl _).cons _
      · rw [show aremove ((k₀, w) :: rest) k = if k₀ = k then rest else (k₀, w) :: aremove rest k
            from rfl, if_neg h₀]
        simp only [List.map_cons]
        exact List.Sublist.cons₂ k₀ ih

theorem aremove_keys_nodup {κ α : Type} [DecidableEq κ]
    (l : List (κ × α)) (k : κ) (hnd : (l.map Prod.fst).Nodup) :
    ((aremove l k).map Prod.fst).Nodup :=
  hnd.sublist (aremove_map_fst_sublist l k)

namespace DataNode

/-- Spec of the collect-and-transition fold of `listNewSegmentsStartPositions`,
relative to the replica's initial new bucket. -/
theorem listNew_fold_spec (l : List (Int × Segment)) :
    ∀ (r : SegmentReplica) (acc : List SegmentStartPosition),
    r.newSegments = l →
    (l.foldl
        (fun acc p =>
          (acc.1.new2NormalSegment p.1,
           acc.2 ++ [{ segmentID := p.1, startPosition := p.2.startPos }]))
        (r, acc)).2
      = acc ++ l.map (fun p => { segmentID := p.1, startPosition := p.2.startPos }) ∧
    (l.foldl
        (fun acc p =>
          (acc.1.new2NormalSegment p.1,
           acc.2 ++ [{ segmentID := p.1, startPosition := p.2.startPos }]))
        (r, acc)).1.newSegments = [] ∧
    (l.foldl
        (fun acc p =>
          (acc.1.new2NormalSegment p.1,
           acc.2 ++ [{ segmentID := p.1, startPosition := p.2.startPos }]))
        (r, acc)).1.flushedSegments = r.flushedSegments ∧
    (l.foldl
        (fun acc p =>
          (acc.1.new2NormalSegment p.1,
           acc.2 ++ [{ segmentID := p.1, startPosition := p.2.startPos }]))
        (r, acc)).1.compactedSegments = r.compactedSegments ∧
    ((l.map Prod.fst).Nodup →
      ∀ k v, alookup l k = some v →
        alookup (l.foldl
          (fun acc p =>
            (acc.1.new2NormalSegment p.1,
             acc.2 ++ [{ segmentID := p.1, startPosition := p.2.startPos }]))
          (r, acc)).1.normalSegments k = some { v with isNew := false }) ∧
    (∀ k, alookup l k = none →
      alookup (l.foldl
        (fun acc p =>
          (acc.1.new2NormalSegment p.1,
           acc.2 ++ [{ segmentID := p.1, startPosition := p.2.startPos }]))
        (r, acc)).1.normalSegments k = alookup r.normalSegments k) := by
  induction l with
  | nil =>
      intro r acc hnew
      refine ⟨by simp, by simpa using hnew, by simp, by simp, ?_, ?_⟩
      · intro _ k v hk
        simp [alookup] at hk
      · intro k _
        simp
  | cons p tail ih =>
      intro r acc hnew
      obtain ⟨k₀, v₀⟩ := p
      have hstep : r.new2NormalSegment k₀ =
          { r with
            normalSegments := aupsert r.normalSegments k₀ { v₀ with isNew := false },
            newSegments := tail } := by
        unfold SegmentReplica.new2NormalSegment
        rw [hnew]
        simp [alookup, aremove]
      have htail : (r.new2NormalSegment k₀).newSegments = tail := by rw [hstep]
      have ihr := ih (r.new2NormalSegment k₀)
        (acc ++ [{ segmentID := k₀, startPosition := v₀.startPos }]) htail
      simp only [List.foldl_cons]
      obtain ⟨ih1, ih2, ih3, ih4, ih5, ih6⟩ := ihr
      refine ⟨?_, ih2, ?_, ?_, ?_, ?_⟩
      · rw [ih1]
        simp
      · rw [ih3, hstep]
      · rw [ih4, hstep]
      · intro hnd k v hk
        simp only [List.map_cons, List.nodup_cons] at hnd
        by_cases hkk : k₀ = k
        · subst hkk
          rw [show alookup ((k₀, v₀) :: tail) k₀ = some v₀ from by simp [alookup]] at hk
          have hnone : alookup tail k₀ = none :=
            alookup_eq_none_of_not_mem_keys tail k₀ hnd.1
          rw [ih6 k₀ hnone, hstep]
          simp only []
          rw [Option.some.injEq] at hk
          rw [← hk]
          exact alookup_aupsert_self _ _ _
        · rw [show alookup ((k₀, v₀) :: tail) k = alookup tail k from by
              simp [alookup, hkk]] at hk
          exact ih5 hnd.2 k v hk
      · intro k hk
        have hkk : k₀ ≠ k := by
          intro he
          subst he
          simp [alookup] at hk
        rw [show alookup ((k₀, v₀) :: tail) k = alookup tail k from by
            simp [alookup, hkk]] at hk
        rw [ih6 k hk, hstep]
        simp only []
        exact alookup_aupsert_ne _ _ _ _ hkk

/-- C9: `listNewSegmentsStartPositions` returns the start position of every
segment in the new bucket and in the same call moves each of them to the
normal bucket; an immediately following second call returns the empty list
and the unchanged replica, so none of the previously returned segments (nor
any other) is reported again. -/
theorem C9_listNewSegmentsStartPositions
    (r : SegmentReplica) (hnd : (r.newSegments.map Prod.fst).Nodup) :
    r.listNewSegmentsStartPositions.2
      = r.newSegments.map (fun p => { segmentID := p.1, startPosition := p.2.startPos }) ∧
    r.listNewSegmentsStartPositions.1.newSegments = [] ∧
    (∀ k v, alookup r.newSegments k = some v →
      alookup r.listNewSegmentsStartPositions.1.normalSegments k
        = some { v with isNew := false }) ∧
    r.listNewSegmentsStartPositions.1.listNewSegmentsStartPositions
      = (r.listNewSegmentsStartPositions.1, []) := by
  have h := listNew_fold_spec r.newSegments r [] rfl
  obtain ⟨h1, h2, _, _, h5, _⟩ := h
  unfold SegmentReplica.listNewSegmentsStartPositions
  refine ⟨by simpa using h1, h2, fun k v hk => h5 hnd k v hk, ?_⟩
  rw [h2]
  simp

/-- Witness for C9 at a concrete replica holding one new segment. -/
theorem C9_witness :
    ((({ collectionID := 7,
         newSegments := [(1,
           { collectionID := 7, partitionID := 2, segmentID := 1, numRows := 0,
             memorySize := 0, isNew := true, isFlushed := false, channelName := "ch",
             compactedTo := 0, startPos := some { msgID := [1], timestamp := 5 },
             endPos := none, pkFilter := [], minPK := none, maxPK := none })],
         normalSegments := [], flushedSegments := [],
         compactedSegments := [] } : SegmentReplica).listNewSegmentsStartPositions).2
      = [{ segmentID := 1, startPosition := some { msgID := [1], timestamp := 5 } }]) :=
  (C9_listNewSegmentsStartPositions _ (by decide)).1

/-- Spec of the move-to-compacted fold of `mergeFlushedSegments`. -/
theorem mergeMove_spec (sid : Int) (ids : List Int) :
    ∀ (r : SegmentReplica),
    ids.Nodup →
    (r.flushedSegments.map Prod.fst).Nodup →
    (∀ id ∈ ids, (alookup r.flushedSegments id).isSome = true) →
    (ids.foldl
        (fun acc id =>
          match alookup acc.flushedSegments id with
          | none => acc
          | some s =>
              { acc with
                compactedSegments := aupsert acc.compactedSegments id
                  { s with compactedTo := sid },
                flushedSegments := aremove acc.flushedSegments id })
        r).collectionID = r.collectionID ∧
    (ids.foldl
        (fun acc id =>
          match alookup acc.flushedSegments id with
          | none => acc
          | some s =>
              { acc with
                compactedSegments := aupsert acc.compactedSegments id
                  { s with compactedTo := sid },
                flushedSegments := aremove acc.flushedSegments id })
        r).newSegments = r.newSegments ∧
    (ids.foldl
        (fun acc id =>
          match alookup acc.flushedSegments id with
          | none => acc
          | some s =>
              { acc with
                compactedSegments := aupsert acc.compactedSegments id
                  { s with compactedTo := sid },
                flushedSegments := aremove acc.flushedSegments id })
        r).normalSegments = r.normalSegments ∧
    (∀ id ∈ ids,
      alookup (ids.foldl
        (fun acc id =>
          match alookup acc.flushedSegments id with
          | none => acc
          | some s =>
              { acc with
                compactedSegments := aupsert acc.compactedSegments id
                  { s with compactedTo := sid },
                flushedSegments := aremove acc.flushedSegments id })
        r).flushedSegments id = none) ∧
    (∀ id v, id ∈ ids → alookup r.flushedSegments id = some v →
      alookup (ids.foldl
        (fun acc id =>
          match alookup acc.flushedSegments id with
          | none => acc
          | some s =>
              { acc with
                compactedSegments := aupsert acc.compactedSegments id
                  { s with compactedTo := sid },
                flushedSegments := aremove acc.flushedSegments id })
        r).compactedSegments id = some { v with compactedTo := sid }) ∧
    (∀ id, id ∉ ids →
      alookup (ids.foldl
        (fun acc id =>
          match alookup acc.flushedSegments id with
          | none => acc
          | some s =>
              { acc with
                compactedSegments := aupsert acc.compactedSegments id
                  { s with compactedTo := sid },
                flushedSegments := aremove acc.flushedSegments id })
        r).flushedSegments id = alookup r.flushedSegments id) ∧
    (∀ id, id ∉ ids →
      alookup (ids.foldl
        (fun acc id =>
          match alookup acc.flushedSegments id with
          | none => acc
          | some s =>
              { acc with
                compactedSegments := aupsert acc.compactedSegments id
                  { s with compactedTo := sid },
                flushedSegments := aremove acc.flushedSegments id })
        r).compactedSegments id = alookup r.compactedSegments id) := by
  induction ids with
  | nil =>
      intro r _ _ _
      exact ⟨rfl, rfl, rfl, by simp, by simp, fun id _ => rfl, fun id _ => rfl⟩
  | cons id₀ tail ih =>
      intro r hnd hndF hmem
      simp only [List.nodup_cons] at hnd
      obtain ⟨s₀, hs₀⟩ := Option.isSome_iff_exists.mp (hmem id₀ (List.mem_cons_self _ _))
      have hstep :
          (fun acc id =>
            match alookup acc.flushedSegments id with
            | none => acc
            | some s =>
                ({ acc with
                  compactedSegments := aupsert acc.compactedSegments id
                    { s with compactedTo := sid },
                  flushedSegments := aremove acc.flushedSegments id } : SegmentReplica)) r id₀
          = { r with
              compactedSegments := aupsert r.compactedSegments id₀
                { s₀ with compactedTo := sid },
              flushedSegments := aremove r.flushedSegments id₀ } := by
        simp only [hs₀]
      set r' : SegmentReplica :=
        { r with
          compactedSegments := aupsert r.compactedSegments id₀ { s₀ with compactedTo := sid },
          flushedSegments := aremove r.flushedSegments id₀ } with hr'
      have hndF' : (r'.flushedSegments.map Prod.fst).Nodup :=
        aremove_keys_nodup _ _ hndF
      have hmem' : ∀ id ∈ tail, (alookup r'.flushedSegments id).isSome = true := by
        intro id hid
        have hne : id₀ ≠ id := fun he => hnd.1 (he ▸ hid)
        rw [show r'.flushedSegments = aremove r.flushedSegments id₀ from rfl,
            alookup_aremove_ne _ _ _ hne]
        exact hmem id (List.mem_cons_of_mem _ hid)
      have ihr := ih r' hnd.2 hndF' hmem'
      obtain ⟨ih1, ih2, ih3, ih4, ih5, ih6, ih7⟩ := ihr
      simp only [List.foldl_cons, hstep]
      refine ⟨ih1, ih2, ih3, ?_, ?_, ?_, ?_⟩
      · intro id hid
        rcases List.mem_cons.mp hid with h | h
        · subst h
          rw [ih6 id hnd.1]
          exact alookup_aremove_self _ _ hndF
        · exact ih4 id h
      · intro id v hid hv
        rcases List.mem_cons.mp hid with h | h
        · subst h
          rw [hs₀] at hv
          rw [Option.some.injEq] at hv
          subst hv
          rw [ih7 id hnd.1]
          exact alookup_aupsert_self _ _ _
        · have hne : id₀ ≠ id := fun he => hnd.1 (he ▸ h)
          have hv' : alookup r'.flushedSegments id = some v := by
            rw [show r'.flushedSegments = aremove r.flushedSegments id₀ from rfl,
              alookup_aremove_ne _ _ _ hne]
            exact hv
          exact ih5 id v h hv'
      · intro id hid
        have hne₀ : id ∉ tail := fun h => hid (List.mem_cons_of_mem _ h)
        have hne : id₀ ≠ id := fun he => hid (he ▸ List.mem_cons_self _ _)
        rw [ih6 id hne₀]
        exact alookup_aremove_ne _ _ _ hne
      · intro id hid
        have hne₀ : id ∉ tail := fun h => hid (List.mem_cons_of_mem _ h)
        have hne : id₀ ≠ id := fun he => hid (he ▸ List.mem_cons_self _ _)
        rw [ih7 id hne₀]
        exact alookup_aupsert_ne _ _ _ _ hne

/-- C8: `mergeFlushedSegments` rejects a mismatching collection id, rejects —
listing exactly the offending ids and leaving every bucket untouched — any
`compactedFrom` id that is not currently a flushed, non-compacted segment, and
otherwise moves every `compactedFrom` segment from the flushed bucket into the
compacted bucket tagged with the new segment's id, storing the new segment in
the flushed bucket if and only if its row count is positive. -/
theorem C8_mergeFlushedSegments (r : SegmentReplica) (seg : Segment) (planID : Int)
    (compactedFrom : List Int)
    (hndF : (r.flushedSegments.map Prod.fst).Nodup)
    (hndC : compactedFrom.Nodup)
    (hsid : seg.segmentID ∉ compactedFrom) :
    (seg.collectionID ≠ r.collectionID →
      r.mergeFlushedSegments seg planID compactedFrom
        = (r, some (MErr.mismatchCollection seg.collectionID))) ∧
    (seg.collectionID = r.collectionID →
      compactedFrom.filter (fun id => !(r.hasSegment id true) || r.hasSegment id false) ≠ [] →
      r.mergeFlushedSegments seg planID compactedFrom
        = (r, some (MErr.invalidCompactedFrom
            (compactedFrom.filter
              (fun id => !(r.hasSegment id true) || r.hasSegment id false))))) ∧
    (seg.collectionID = r.collectionID →
      (∀ id ∈ compactedFrom, r.hasSegment id true = true ∧ r.hasSegment id false = false) →
      (r.mergeFlushedSegments seg planID compactedFrom).2 = none ∧
      (∀ id ∈ compactedFrom,
        alookup (r.mergeFlushedSegments seg planID compactedFrom).1.flushedSegments id
          = none ∧
        ∃ v, alookup r.flushedSegments id = some v ∧
          alookup (r.mergeFlushedSegments seg planID compactedFrom).1.compactedSegments id
            = some { v with compactedTo := seg.segmentID }) ∧
      (0 < seg.numRows →
        alookup (r.mergeFlushedSegments seg planID compactedFrom).1.flushedSegments
            seg.segmentID
          = some { seg with isNew := false, isFlushed := true }) ∧
      (seg.numRows ≤ 0 →
        alookup (r.mergeFlushedSegments seg planID compactedFrom).1.flushedSegments
            seg.segmentID
          = alookup r.flushedSegments seg.segmentID)) := by
  refine ⟨?_, ?_, ?_⟩
  · intro hne
    unfold SegmentReplica.mergeFlushedSegments
    rw [if_pos hne]
  · intro heq hbad
    unfold SegmentReplica.mergeFlushedSegments
    rw [if_neg (by rw [heq]; exact fun h => h rfl)]
    have : 0 < (compactedFrom.filter
        (fun id => !(r.hasSegment id true) || r.hasSegment id false)).length :=
      List.length_pos.mpr hbad
    simp only [if_pos this]
  · intro heq hvalid
    have hfilter : compactedFrom.filter
        (fun id => !(r.hasSegment id true) || r.hasSegment id false) = [] := by
      rw [List.filter_eq_nil_iff]
      intro id hid
      rw [(hvalid id hid).1, (hvalid id hid).2]
      simp
    have hmem : ∀ id ∈ compactedFrom, (alookup r.flushedSegments id).isSome = true := by
      intro id hid
      have h1 := (hvalid id hid).1
      have h2 := (hvalid id hid).2
      unfold SegmentReplica.hasSegment at h1 h2
      simp only [Bool.and_false, Bool.or_false, Bool.false_and] at h2
      simp only [Bool.true_and] at h1
      rw [Bool.or_eq_false_iff] at h2
      rw [h2.1, h2.2] at h1
      simp only [Bool.false_or] at h1
      exact h1
    have hspec := mergeMove_spec seg.segmentID compactedFrom r hndC hndF hmem
    obtain ⟨_, _, _, sp4, sp5, sp6, sp7⟩ := hspec
    have hunf : r.mergeFlushedSegments seg planID compactedFrom
        = (let r1 := compactedFrom.foldl
            (fun acc id =>
              match alookup acc.flushedSegments id with
              | none => acc
              | some s =>
                  { acc with
                    compactedSegments := aupsert acc.compactedSegments id
                      { s with compactedTo := seg.segmentID },
                    flushedSegments := aremove acc.flushedSegments id })
            r
           if 0 < seg.numRows then
            ({ r1 with
                flushedSegments := aupsert r1.flushedSegments seg.segmentID
                  { seg with isNew := false, isFlushed := true } }, none)
           else (r1, none)) := by
      unfold SegmentReplica.mergeFlushedSegments
      rw [if_neg (by rw [heq]; exact fun h => h rfl)]
      rw [hfilter]
      simp
    by_cases hrows : 0 < seg.numRows
    · rw [hunf]
      simp only [if_pos hrows]
      refine ⟨trivial, ?_, ?_, ?_⟩
      · intro id hid
        have hne : seg.segmentID ≠ id := fun he => hsid (he ▸ hid)
        constructor
        · rw [alookup_aupsert_ne _ _ _ _ hne]
          exact sp4 id hid
        · obtain ⟨v, hv⟩ := Option.isSome_iff_exists.mp (hmem id hid)
          exact ⟨v, hv, sp5 id v hid hv⟩
      · intro _
        exact alookup_aupsert_self _ _ _
      · intro hle
        exact absurd hrows (not_lt.mpr hle)
    · rw [hunf]
      simp only [if_neg hrows]
      refine ⟨trivial, ?_, ?_, ?_⟩
      · intro id hid
        refine ⟨sp4 id hid, ?_⟩
        obtain ⟨v, hv⟩ := Option.isSome_iff_exists.mp (hmem id hid)
        exact ⟨v, hv, sp5 id v hid hv⟩
      · intro hpos
        exact absurd hpos hrows
      · intro _
        exact sp6 seg.segmentID hsid

/-- Invariant of the per-key min/max/filter fold: starting from a segment
whose range is `[e mn, e mx]`, folding further keys keeps every filter entry,
adds an entry per key, and moves the range endpoints to the extremes. -/
theorem addPK_fold_invariant {α : Type} [LinearOrder α] (e : α → PrimaryKey)
    (step : Segment → α → Segment)
    (hstep : ∀ s k, step s k =
      (let s1 := s.updatePk (e k)
       { s1 with pkFilter := s1.pkFilter ++ [bloomEntryOf (e k)] }))
    (hGT : ∀ a b : α, pkGT (e a) (e b) = decide (b < a))
    (hLT : ∀ a b : α, pkLT (e a) (e b) = decide (a < b)) :
    ∀ (ks : List α) (s : Segment) (mn mx : α),
    s.minPK = some (e mn) → s.maxPK = some (e mx) →
    (∀ x ∈ s.pkFilter, x ∈ (ks.foldl step s).pkFilter) ∧
    (∀ k ∈ ks, bloomEntryOf (e k) ∈ (ks.foldl step s).pkFilter) ∧
    (∃ mn', (ks.foldl step s).minPK = some (e mn') ∧ (mn' = mn ∨ mn' ∈ ks) ∧
      mn' ≤ mn ∧ ∀ k ∈ ks, mn' ≤ k) ∧
    (∃ mx', (ks.foldl step s).maxPK = some (e mx') ∧ (mx' = mx ∨ mx' ∈ ks) ∧
      mx ≤ mx' ∧ ∀ k ∈ ks, k ≤ mx') := by
  intro ks
  induction ks with
  | nil =>
      intro s mn mx hmn hmx
      refine ⟨fun x hx => hx, by simp, ⟨mn, hmn, Or.inl rfl, le_refl _, by simp⟩,
        ⟨mx, hmx, Or.inl rfl, le_refl _, by simp⟩⟩
  | cons k₀ tail ih =>
      intro s mn mx hmn hmx
      have hs' : step s k₀ =
          (let s1 := s.updatePk (e k₀)
           { s1 with pkFilter := s1.pkFilter ++ [bloomEntryOf (e k₀)] }) := hstep s k₀
      set mn₁ : α := if k₀ < mn then k₀ else mn with hmn₁
      set mx₁ : α := if mx < k₀ then k₀ else mx with hmx₁
      have hGT' : pkGT (e mn) (e k₀) = decide (k₀ < mn) := hGT mn k₀
      have hLT' : pkLT (e mx) (e k₀) = decide (mx < k₀) := hLT mx k₀
      have hupd : (s.updatePk (e k₀)).minPK = some (e mn₁) ∧
          (s.updatePk (e k₀)).maxPK = some (e mx₁) ∧
          (s.updatePk (e k₀)).pkFilter = s.pkFilter := by
        by_cases h1 : k₀ < mn
        · by_cases h2 : mx < k₀
          · refine ⟨?_, ?_, ?_⟩ <;>
              simp [Segment.updatePk, hmn, hmx, hGT', hLT', h1, h2, hmn₁, hmx₁]
          · refine ⟨?_, ?_, ?_⟩ <;>
              simp [Segment.updatePk, hmn, hmx, hGT', hLT', h1, h2, hmn₁, hmx₁]
        · by_cases h2 : mx < k₀
          · refine ⟨?_, ?_, ?_⟩ <;>
              simp [Segment.updatePk, hmn, hmx, hGT', hLT', h1, h2, hmn₁, hmx₁]
          · refine ⟨?_, ?_, ?_⟩ <;>
              simp [Segment.updatePk, hmn, hmx, hGT', hLT', h1, h2, hmn₁, hmx₁]
      have hmin' : (step s k₀).minPK = some (e mn₁) := by rw [hs']; exact hupd.1
      have hmax' : (step s k₀).maxPK = some (e mx₁) := by rw [hs']; exact hupd.2.1
      have hfil' : (step s k₀).pkFilter = s.pkFilter ++ [bloomEntryOf (e k₀)] := by
        rw [hs']
        simp only []
        rw [hupd.2.2]
      have ihr := ih (step s k₀) mn₁ mx₁ hmin' hmax'
      obtain ⟨ih1, ih2, ⟨mn', hmn', hmem', hle', hall'⟩, ⟨mx', hmx', hmemx', hlex', hallx'⟩⟩ := ihr
      simp only [List.foldl_cons]
      have hmn₁_le : mn₁ ≤ mn := by
        rw [hmn₁]
        by_cases h : k₀ < mn
        · rw [if_pos h]; exact le_of_lt h
        · rw [if_neg h]
      have hmn₁_le_k₀ : mn₁ ≤ k₀ := by
        rw [hmn₁]
        by_cases h : k₀ < mn
        · rw [if_pos h]
        · rw [if_neg h]; exact not_lt.mp h
      have hmx_le₁ : mx ≤ mx₁ := by
        rw [hmx₁]
        by_cases h : mx < k₀
        · rw [if_pos h]; exact le_of_lt h
        · rw [if_neg h]
      have hk₀_le₁ : k₀ ≤ mx₁ := by
        rw [hmx₁]
        by_cases h : mx < k₀
        · rw [if_pos h]
        · rw [if_neg h]; exact not_lt.mp h
      refine ⟨?_, ?_, ⟨mn', hmn', ?_, le_trans hle' hmn₁_le, ?_⟩,
        ⟨mx', hmx', ?_, le_trans hmx_le₁ hlex', ?_⟩⟩
      · intro x hx
        exact ih1 x (by rw [hfil']; exact List.mem_append_left _ hx)
      · intro k hk
        rcases List.mem_cons.mp hk with h | h
        · subst h
          exact ih1 _ (by rw [hfil']; exact List.mem_append_right _ (by simp))
        · exact ih2 k h
      · rcases hmem' with h | h
        · rw [hmn₁] at h
          by_cases hc : k₀ < mn
          · rw [if_pos hc] at h
            exact Or.inr (List.mem_cons.mpr (Or.inl h))
          · rw [if_neg hc] at h
            exact Or.inl h
        · exact Or.inr (List.mem_cons.mpr (Or.inr h))
      · intro k hk
        rcases List.mem_cons.mp hk with h | h
        · subst h
          exact le_trans hle' hmn₁_le_k₀
        · exact hall' k h
      · rcases hmemx' with h | h
        · rw [hmx₁] at h
          by_cases hc : mx < k₀
          · rw [if_pos hc] at h
            exact Or.inr (List.mem_cons.mpr (Or.inl h))
          · rw [if_neg hc] at h
            exact Or.inl h
        · exact Or.inr (List.mem_cons.mpr (Or.inr h))
      · intro k hk
        rcases List.mem_cons.mp hk with h | h
        · subst h
          exact le_trans hk₀_le₁ hlex'
        · exact hallx' k h

/-- Main spec of the per-key fold starting from a fresh (rangeless)
segment. -/
theorem addPK_fold_spec {α : Type} [LinearOrder α] (e : α → PrimaryKey)
    (step : Segment → α → Segment)
    (hstep : ∀ s k, step s k =
      (let s1 := s.updatePk (e k)
       { s1 with pkFilter := s1.pkFilter ++ [bloomEntryOf (e k)] }))
    (hGT : ∀ a b : α, pkGT (e a) (e b) = decide (b < a))
    (hLT : ∀ a b : α, pkLT (e a) (e b) = decide (a < b))
    (ks : List α) (s : Segment) (hmn : s.minPK = none) (hmx : s.maxPK = none) :
    (∀ k ∈ ks, bloomEntryOf (e k) ∈ (ks.foldl step s).pkFilter) ∧
    (ks ≠ [] → ∃ mn, (ks.foldl step s).minPK = some (e mn) ∧ mn ∈ ks ∧
      ∀ k ∈ ks, mn ≤ k) ∧
    (ks ≠ [] → ∃ mx, (ks.foldl step s).maxPK = some (e mx) ∧ mx ∈ ks ∧
      ∀ k ∈ ks, k ≤ mx) := by
  match ks with
  | [] => exact ⟨by simp, fun h => absurd rfl h, fun h => absurd rfl h⟩
  | k₀ :: tail =>
      have hs1 : (step s k₀).minPK = some (e k₀) ∧ (step s k₀).maxPK = some (e k₀) ∧
          (step s k₀).pkFilter = s.pkFilter ++ [bloomEntryOf (e k₀)] := by
        rw [hstep]
        unfold Segment.updatePk
        rw [hmn]
        have : ({ s with minPK := some (e k₀) } : Segment).maxPK = none := hmx
        rw [this]
        exact ⟨rfl, rfl, rfl⟩
      have hinv := addPK_fold_invariant e step hstep hGT hLT tail (step s k₀) k₀ k₀
        hs1.1 hs1.2.1
      obtain ⟨inv1, inv2, ⟨mn', hmn', hmemn, hlen, halln⟩,
        ⟨mx', hmx', hmemx, hlex, hallx⟩⟩ := hinv
      simp only [List.foldl_cons]
      refine ⟨?_, ?_, ?_⟩
      · intro k hk
        rcases List.mem_cons.mp hk with h | h
        · subst h
          exact inv1 _ (by rw [hs1.2.2]; exact List.mem_append_right _ (by simp))
        · exact inv2 k h
      · intro _
        refine ⟨mn', hmn', ?_, ?_⟩
        · rcases hmemn with h | h
          · exact List.mem_cons.mpr (Or.inl h)
          · exact List.mem_cons.mpr (Or.inr h)
        · intro k hk
          rcases List.mem_cons.mp hk with h | h
          · subst h
            exact hlen
          · exact halln k h
      · intro _
        refine ⟨mx', hmx', ?_, ?_⟩
        · rcases hmemx with h | h
          · exact List.mem_cons.mpr (Or.inl h)
          · exact List.mem_cons.mpr (Or.inr h)
        · intro k hk
          rcases List.mem_cons.mp hk with h | h
          · subst h
            exact hlex
          · exact hallx k h

/-- A homogeneous int64 batch sequence is one flat fold over the concatenated
keys. -/
theorem applyPKBatches_int (batches : List FieldData)
    (h : ∀ b ∈ batches, ∃ d, b = FieldData.int64Data d) :
    ∀ s : Segment, ∃ ks : List Int,
      applyPKBatches s batches = ks.foldl Segment.addInt64PK s ∧
      (batches.map pkKeysOf).join = ks.map PrimaryKey.int64PK := by
  induction batches with
  | nil => exact fun s => ⟨[], rfl, rfl⟩
  | cons b rest ih =>
      intro s
      obtain ⟨d, rfl⟩ := h b (List.mem_cons_self _ _)
      obtain ⟨ks, h1, h2⟩ := ih (fun b hb => h b (List.mem_cons_of_mem _ hb))
        (d.foldl Segment.addInt64PK s)
      refine ⟨d ++ ks, ?_, ?_⟩
      · rw [List.foldl_append]
        rw [← h1]
        rfl
      · simp [pkKeysOf, h2]

/-- A homogeneous string batch sequence is one flat fold over the concatenated
keys. -/
theorem applyPKBatches_string (batches : List FieldData)
    (h : ∀ b ∈ batches, ∃ d, b = FieldData.stringData d) :
    ∀ s : Segment, ∃ ks : List String,
      applyPKBatches s batches = ks.foldl Segment.addStringPK s ∧
      (batches.map pkKeysOf).join = ks.map PrimaryKey.varCharPK := by
  induction batches with
  | nil => exact fun s => ⟨[], rfl, rfl⟩
  | cons b rest ih =>
      intro s
      obtain ⟨d, rfl⟩ := h b (List.mem_cons_self _ _)
      obtain ⟨ks, h1, h2⟩ := ih (fun b hb => h b (List.mem_cons_of_mem _ hb))
        (d.foldl Segment.addStringPK s)
      refine ⟨d ++ ks, ?_, ?_⟩
      · rw [List.foldl_append]
        rw [← h1]
        rfl
      · simp [pkKeysOf, h2]

/-- C10: over any sequence of `updatePKRange` calls with homogeneous int64 or
string batches starting from a fresh segment, every key's filter entry is in
the membership filter, `minPK` is the least and `maxPK` the greatest of all
keys added so far; `updatePKRange` never returns an error, and a call with any
other field-data kind returns the segment unchanged. -/
theorem C10_updatePKRange (batches : List FieldData) (s : Segment)
    (hmn : s.minPK = none) (hmx : s.maxPK = none)
    (hhomog : (∀ b ∈ batches, ∃ d, b = FieldData.int64Data d) ∨
              (∀ b ∈ batches, ∃ d, b = FieldData.stringData d)) :
    (∀ (s' : Segment) (b : FieldData), (s'.updatePKRange b).2 = none) ∧
    (∀ s' : Segment, s'.updatePKRange FieldData.otherData = (s', none)) ∧
    (∀ pk ∈ (batches.map pkKeysOf).join,
      bloomEntryOf pk ∈ (applyPKBatches s batches).pkFilter) ∧
    ((batches.map pkKeysOf).join ≠ [] →
      ∃ mn, (applyPKBatches s batches).minPK = some mn ∧
        mn ∈ (batches.map pkKeysOf).join ∧
        ∀ pk ∈ (batches.map pkKeysOf).join, pkGT mn pk = false) ∧
    ((batches.map pkKeysOf).join ≠ [] →
      ∃ mx, (applyPKBatches s batches).maxPK = some mx ∧
        mx ∈ (batches.map pkKeysOf).join ∧
        ∀ pk ∈ (batches.map pkKeysOf).join, pkLT mx pk = false) := by
  refine ⟨fun s' b => by cases b <;> rfl, fun s' => rfl, ?_, ?_, ?_⟩ <;>
  · rcases hhomog with hint | hstr
    · obtain ⟨ks, heq, hjoin⟩ := applyPKBatches_int batches hint s
      have hspec := addPK_fold_spec PrimaryKey.int64PK Segment.addInt64PK
        (fun s k => rfl) (fun a b => rfl) (fun a b => rfl) ks s hmn hmx
      obtain ⟨sp1, sp2, sp3⟩ := hspec
      rw [heq, hjoin]
      first
      | -- filter membership
        (intro pk hpk
         obtain ⟨k, hk, rfl⟩ := List.mem_map.mp hpk
         exact sp1 k hk)
      | -- min
        (intro hne
         have hks : ks ≠ [] := by
           intro h
           exact hne (by rw [h]; rfl)
         obtain ⟨mn, h1, h2, h3⟩ := sp2 hks
         refine ⟨PrimaryKey.int64PK mn, h1, List.mem_map.mpr ⟨mn, h2, rfl⟩, ?_⟩
         intro pk hpk
         obtain ⟨k, hk, rfl⟩ := List.mem_map.mp hpk
         exact decide_eq_false (not_lt.mpr (h3 k hk)))
      | -- max
        (intro hne
         have hks : ks ≠ [] := by
           intro h
           exact hne (by rw [h]; rfl)
         obtain ⟨mx, h1, h2, h3⟩ := sp3 hks
         refine ⟨PrimaryKey.int64PK mx, h1, List.mem_map.mpr ⟨mx, h2, rfl⟩, ?_⟩
         intro pk hpk
         obtain ⟨k, hk, rfl⟩ := List.mem_map.mp hpk
         exact decide_eq_false (not_lt.mpr (h3 k hk)))
    · obtain ⟨ks, heq, hjoin⟩ := applyPKBatches_string batches hstr s
      have hspec := addPK_fold_spec PrimaryKey.varCharPK Segment.addStringPK
        (fun s k => rfl)
        (fun a b => by unfold pkGT; exact decide_eq_decide.mpr Iff.rfl)
        (fun a b => by unfold pkLT; exact decide_eq_decide.mpr Iff.rfl) ks s hmn hmx
      obtain ⟨sp1, sp2, sp3⟩ := hspec
      rw [heq, hjoin]
      first
      | (intro pk hpk
         obtain ⟨k, hk, rfl⟩ := List.mem_map.mp hpk
         exact sp1 k hk)
      | (intro hne
         have hks : ks ≠ [] := by
           intro h
           exact hne (by rw [h]; rfl)
         obtain ⟨mn, h1, h2, h3⟩ := sp2 hks
         refine ⟨PrimaryKey.varCharPK mn, h1, List.mem_map.mpr ⟨mn, h2, rfl⟩, ?_⟩
         intro pk hpk
         obtain ⟨k, hk, rfl⟩ := List.mem_map.mp hpk
         exact decide_eq_false (not_lt.mpr (h3 k hk)))
      | (intro hne
         have hks : ks ≠ [] := by
           intro h
           exact hne (by rw [h]; rfl)
         obtain ⟨mx, h1, h2, h3⟩ := sp3 hks
         refine ⟨PrimaryKey.varCharPK mx, h1, List.mem_map.mpr ⟨mx, h2, rfl⟩, ?_⟩
         intro pk hpk
         obtain ⟨k, hk, rfl⟩ := List.mem_map.mp hpk
         exact decide_eq_false (not_lt.mpr (h3 k hk)))

/-- Witness for C8: a successful merge at concrete inputs. -/
theorem C8_witness :
    (wReplica.mergeFlushedSegments wSegNew 99 [10]).2 = none ∧
    alookup (wReplica.mergeFlushedSegments wSegNew 99 [10]).1.flushedSegments 10 = none ∧
    alookup (wReplica.mergeFlushedSegments wSegNew 99 [10]).1.flushedSegments
        wSegNew.segmentID
      = some { wSegNew with isNew := false, isFlushed := true } := by
  have h := C8_mergeFlushedSegments wReplica wSegNew 99 [10] (by decide) (by decide) (by decide)
  have h3 := h.2.2 (by decide) (by decide)
  exact ⟨h3.1, (h3.2.1 10 (by decide)).1, h3.2.2.1 (by decide)⟩

/-- Witness for C10: a concrete int64 batch. -/
theorem C10_witness :
    bloomEntryOf (PrimaryKey.int64PK 3)
      ∈ (applyPKBatches wSegFlushed [FieldData.int64Data [10, 3, 25]]).pkFilter ∧
    ∃ mn, (applyPKBatches wSegFlushed [FieldData.int64Data [10, 3, 25]]).minPK = some mn ∧
      mn ∈ ([FieldData.int64Data [10, 3, 25]].map pkKeysOf).join ∧
      ∀ pk ∈ ([FieldData.int64Data [10, 3, 25]].map pkKeysOf).join, pkGT mn pk = false := by
  have h := C10_updatePKRange [FieldData.int64Data [10, 3, 25]] wSegFlushed rfl rfl
    (Or.inl (by
      intro b hb
      rw [List.mem_singleton] at hb
      exact ⟨_, hb⟩))
  exact ⟨h.2.2.1 _ (by decide), h.2.2.2.1 (by decide)⟩

end DataNode

namespace DataCoord

theorem catalogCall_segments (m : Meta) (upd : KVStore → KVStore) :
    (catalogCall m upd).1.segments = m.segments := by
  unfold catalogCall
  cases m.fuel <;> rfl

theorem catalogCall_fail (m : Meta) (upd : KVStore → KVStore) (hfuel : m.fuel = 0) :
    catalogCall m upd = (m, some MErr.persistFailure) := by
  unfold catalogCall
  rw [hfuel]

theorem catalogCall_ok (m : Meta) (upd : KVStore → KVStore) (n : Nat)
    (hfuel : m.fuel = n + 1) :
    catalogCall m upd = ({ m with kv := upd m.kv, fuel := n }, none) := by
  unfold catalogCall
  rw [hfuel]

theorem addSegment_fail (m : Meta) (seg : SegmentInfo) (hfuel : m.fuel = 0) :
    m.addSegment seg = (m, some MErr.persistFailure) := by
  unfold Meta.addSegment
  rw [catalogCall_fail m _ hfuel]

theorem addSegment_ok (m : Meta) (seg : SegmentInfo) (n : Nat) (hfuel : m.fuel = n + 1) :
    m.addSegment seg
      = ({ segments := m.segments.setSegment seg.id seg,
           kv := saveSegments m.kv [seg], fuel := n }, none) := by
  unfold Meta.addSegment
  rw [catalogCall_ok m _ n hfuel]

theorem batchSaveDrop_fail0 (m : Meta) (channel : String)
    (mods : List (Int × SegmentInfo)) (hfuel : m.fuel = 0) :
    m.batchSaveDropSegments channel mods = (m, some MErr.persistFailure) := by
  unfold Meta.batchSaveDropSegments
  rw [catalogCall_fail m _ hfuel]

theorem batchSaveDrop_fail1 (m : Meta) (channel : String)
    (mods : List (Int × SegmentInfo)) (hfuel : m.fuel = 1) :
    m.batchSaveDropSegments channel mods
      = ({ m with kv := saveSegments m.kv (mods.map Prod.snd), fuel := 0 },
         some MErr.persistFailure) := by
  obtain ⟨ms, mkv, mf⟩ := m
  have h : mf = 1 := hfuel
  subst h
  rfl

theorem batchSaveDrop_ok (m : Meta) (channel : String)
    (mods : List (Int × SegmentInfo)) (n : Nat) (hfuel : m.fuel = n + 2) :
    m.batchSaveDropSegments channel mods
      = ({ segments := mods.foldl (fun si p => si.setSegment p.1 p.2) m.segments,
           kv := markChannelDeleted (saveSegments m.kv (mods.map Prod.snd)) channel,
           fuel := n }, none) := by
  obtain ⟨ms, mkv, mf⟩ := m
  have h : mf = n + 2 := hfuel
  subst h
  rfl

theorem updateFlush_notFound (m : Meta) (segmentID : Int) (flushed dropped : Bool)
    (binlogs statslogs deltalogs : List FieldBinlog) (checkpoints : List CheckPoint)
    (startPositions : List SegmentStartPosition) (now : Nat)
    (hs : m.segments.getSegment segmentID = none) :
    m.updateFlushSegmentsInfo segmentID flushed dropped false binlogs statslogs deltalogs
      checkpoints startPositions now = (m, none) := by
  simp [Meta.updateFlushSegmentsInfo, hs]

theorem updateFlush_unhealthy (m : Meta) (segmentID : Int) (s : SegmentInfo)
    (flushed dropped : Bool)
    (binlogs statslogs deltalogs : List FieldBinlog) (checkpoints : List CheckPoint)
    (startPositions : List SegmentStartPosition) (now : Nat)
    (hs : m.segments.getSegment segmentID = some s) (hh : isSegmentHealthy s = false) :
    m.updateFlushSegmentsInfo segmentID flushed dropped false binlogs statslogs deltalogs
      checkpoints startPositions now = (m, none) := by
  simp [Meta.updateFlushSegmentsInfo, hs, hh]

theorem updateFlush_fail (m : Meta) (segmentID : Int) (s : SegmentInfo)
    (flushed dropped : Bool)
    (binlogs statslogs deltalogs : List FieldBinlog) (checkpoints : List CheckPoint)
    (startPositions : List SegmentStartPosition) (now : Nat)
    (hs : m.segments.getSegment segmentID = some s) (hh : isSegmentHealthy s = true)
    (hfuel : m.fuel = 0) :
    m.updateFlushSegmentsInfo segmentID flushed dropped false binlogs statslogs deltalogs
      checkpoints startPositions now = (m, some MErr.persistFailure) := by
  simp [Meta.updateFlushSegmentsInfo, hs, hh, catalogCall_fail m _ hfuel]

theorem updateFlush_ok (m : Meta) (segmentID : Int) (s : SegmentInfo)
    (flushed dropped : Bool)
    (binlogs statslogs deltalogs : List FieldBinlog) (checkpoints : List CheckPoint)
    (startPositions : List SegmentStartPosition) (now : Nat) (n : Nat)
    (hs : m.segments.getSegment segmentID = some s) (hh : isSegmentHealthy s = true)
    (hfuel : m.fuel = n + 1) :
    m.updateFlushSegmentsInfo segmentID flushed dropped false binlogs statslogs deltalogs
        checkpoints startPositions now
      = ({ segments := (flushModSegments m segmentID
              (flushClone s flushed dropped binlogs statslogs deltalogs now)
              checkpoints startPositions).foldl
            (fun si p => si.setSegment p.1 p.2) m.segments,
           kv := saveSegments m.kv ((flushModSegments m segmentID
              (flushClone s flushed dropped binlogs statslogs deltalogs now)
              checkpoints startPositions).map Prod.snd),
           fuel := n }, none) := by
  simp [Meta.updateFlushSegmentsInfo, hs, hh, catalogCall_ok m _ n hfuel]

theorem fieldPaths_append (f : Int) (l1 l2 : List FieldBinlog) :
    fieldPaths f (l1 ++ l2) = fieldPaths f l1 ++ fieldPaths f l2 := by
  induction l1 with
  | nil => rfl
  | cons b rest ih =>
      simp only [List.cons_append, fieldPaths, List.append_eq, ih, List.append_assoc]

theorem fieldPaths_nil_of_not_mem (f : Int) (l : List FieldBinlog)
    (h : f ∉ l.map FieldBinlog.fieldID) : fieldPaths f l = [] := by
  induction l with
  | nil => rfl
  | cons b rest ih =>
      simp only [List.map_cons, List.mem_cons] at h
      push_neg at h
      simp only [fieldPaths, if_neg (Ne.symm h.1), List.nil_append]
      exact ih h.2

theorem extendFieldBinlog_keys (curr : List FieldBinlog) (t : FieldBinlog) :
    (extendFieldBinlog curr t).map FieldBinlog.fieldID = curr.map FieldBinlog.fieldID := by
  induction curr with
  | nil => rfl
  | cons b rest ih =>
      by_cases h : b.fieldID = t.fieldID
      · simp only [extendFieldBinlog, if_pos h, List.map_cons]
      · simp only [extendFieldBinlog, if_neg h, List.map_cons, ih]

theorem extendFieldBinlog_fieldPaths (f : Int) (curr : List FieldBinlog) (t : FieldBinlog)
    (hnd : (curr.map FieldBinlog.fieldID).Nodup) (hmem : t.fieldID ∈ curr.map FieldBinlog.fieldID) :
    fieldPaths f (extendFieldBinlog curr t)
      = fieldPaths f curr ++ (if t.fieldID = f then t.binlogs.map Binlog.logPath else []) := by
  induction curr with
  | nil => simp at hmem
  | cons b rest ih =>
      simp only [List.map_cons, List.nodup_cons] at hnd
      by_cases h : b.fieldID = t.fieldID
      · simp only [extendFieldBinlog, if_pos h, fieldPaths]
        by_cases hf : b.fieldID = f
        · have ht : t.fieldID = f := h ▸ hf
          have hrest : fieldPaths f rest = [] :=
            fieldPaths_nil_of_not_mem f rest (hf ▸ hnd.1)
          simp [fieldPaths, hf, ht, hrest]
        · have ht : ¬ t.fieldID = f := fun ht' => hf (h.trans ht')
          simp [fieldPaths, hf, ht]
      · have hmem' : t.fieldID ∈ rest.map FieldBinlog.fieldID := by
          rcases List.mem_cons.mp hmem with hx | hx
          · exact absurd hx.symm h
          · exact hx
        simp only [extendFieldBinlog, if_neg h, fieldPaths, ih hnd.2 hmem',
          List.append_assoc]

theorem getFieldBinlogs_none_iff (id : Int) (l : List FieldBinlog) :
    getFieldBinlogs id l = none ↔ id ∉ l.map FieldBinlog.fieldID := by
  unfold getFieldBinlogs
  rw [List.find?_eq_none]
  constructor
  · intro h hmem
    obtain ⟨b, hb, hid⟩ := List.mem_map.mp hmem
    exact absurd (by simpa using (hid : b.fieldID = id)) (by simpa using h b hb)
  · intro h b hb
    by_contra hcon
    exact h (List.mem_map.mpr ⟨b, hb, by simpa using hcon⟩)

/-- Per-field spec of the binlog merge loop: the incoming fragments' paths are
appended after the existing ones, field by field, with no deduplication. -/
theorem mergeFieldBinlogs_spec (incoming : List FieldBinlog) :
    ∀ curr, (curr.map FieldBinlog.fieldID).Nodup →
    ((mergeFieldBinlogs curr incoming).map FieldBinlog.fieldID).Nodup ∧
    ∀ f, fieldPaths f (mergeFieldBinlogs curr incoming)
      = fieldPaths f curr ++ fieldPaths f incoming := by
  induction incoming with
  | nil => exact fun curr hnd => ⟨hnd, fun f => by simp [mergeFieldBinlogs, fieldPaths]⟩
  | cons t rest ih =>
      intro curr hnd
      have hstep : mergeFieldBinlogs curr (t :: rest)
          = mergeFieldBinlogs
              (match getFieldBinlogs t.fieldID curr with
               | none => curr ++ [t]
               | some _ => extendFieldBinlog curr t) rest := rfl
      rcases hg : getFieldBinlogs t.fieldID curr with _ | fb
      · have hnotmem : t.fieldID ∉ curr.map FieldBinlog.fieldID :=
          (getFieldBinlogs_none_iff t.fieldID curr).mp hg
        have hnd' : ((curr ++ [t]).map FieldBinlog.fieldID).Nodup := by
          rw [List.map_append]
          simp only [List.map_cons, List.map_nil]
          rw [List.nodup_append]
          exact ⟨hnd, List.nodup_singleton _, by
            intro a ha hb
            simp only [List.mem_singleton] at hb
            exact hnotmem (hb ▸ ha)⟩
        obtain ⟨ihnd, ihp⟩ := ih (curr ++ [t]) hnd'
        rw [hstep, hg]
        refine ⟨ihnd, fun f => ?_⟩
        rw [ihp f, fieldPaths_append]
        simp only [fieldPaths, List.append_nil]
        simp [List.append_assoc]
      · have hmem : t.fieldID ∈ curr.map FieldBinlog.fieldID := by
          unfold getFieldBinlogs at hg
          have := List.find?_some hg
          have hmemfb := List.mem_of_find?_eq_some hg
          exact List.mem_map.mpr ⟨fb, hmemfb, by simpa using this⟩
        have hnd' : ((extendFieldBinlog curr t).map FieldBinlog.fieldID).Nodup := by
          rw [extendFieldBinlog_keys]
          exact hnd
        obtain ⟨ihnd, ihp⟩ := ih (extendFieldBinlog curr t) hnd'
        rw [hstep, hg]
        refine ⟨ihnd, fun f => ?_⟩
        rw [ihp f, extendFieldBinlog_fieldPaths f curr t hnd hmem]
        simp only [fieldPaths]
        simp [List.append_assoc]

theorem flushClone_binlogs (s : SegmentInfo) (flushed dropped : Bool)
    (binlogs statslogs deltalogs : List FieldBinlog) (now : Nat) :
    (flushClone s flushed dropped binlogs statslogs deltalogs now).binlogs
      = mergeFieldBinlogs s.binlogs binlogs := by
  unfold flushClone
  cases flushed <;> cases dropped <;> by_cases h : 0 < statslogs.length <;>
    simp [h]

theorem flushClone_deltalogs (s : SegmentInfo) (flushed dropped : Bool)
    (binlogs statslogs deltalogs : List FieldBinlog) (now : Nat) :
    (flushClone s flushed dropped binlogs statslogs deltalogs now).deltalogs
      = mergeFieldBinlogs s.deltalogs deltalogs := by
  unfold flushClone
  cases flushed <;> cases dropped <;> by_cases h : 0 < statslogs.length <;>
    simp [h]

theorem flushClone_statslogs (s : SegmentInfo) (flushed dropped : Bool)
    (binlogs statslogs deltalogs : List FieldBinlog) (now : Nat) :
    (flushClone s flushed dropped binlogs statslogs deltalogs now).statslogs
      = (if 0 < statslogs.length then statslogs else s.statslogs) := by
  unfold flushClone
  cases flushed <;> cases dropped <;> by_cases h : 0 < statslogs.length <;>
    simp [h]

theorem setSegment_self (si : SegmentsInfo) (k : Int) (v : SegmentInfo)
    (h : si.getSegment k = some v) : si.setSegment k v = si := by
  obtain ⟨l⟩ := si
  unfold SegmentsInfo.setSegment
  exact congrArg SegmentsInfo.mk (aupsert_self l k v h)

/-- C7 counterexample: `SetState` on a *dropped* segment with a healthy target
state is not a silent no-op — the in-memory record is revived to the target
state and the revived record is persisted. -/
theorem C7_counterexample :
    ((wMeta [(1, { wSegBase with state := SegmentState.dropped })] 1).setState 1
        SegmentState.flushed).2 = none ∧
    ((wMeta [(1, { wSegBase with state := SegmentState.dropped })] 1).setState 1
        SegmentState.flushed).1.segments.getSegment 1
      = some { wSegBase with state := SegmentState.flushed } ∧
    alookup ((wMeta [(1, { wSegBase with state := SegmentState.dropped })] 1).setState 1
        SegmentState.flushed).1.kv.segs 1
      = some { wSegBase with state := SegmentState.flushed } := by
  decide

/-- C7 (amended): `SetState` characterised — an unknown id is a silent no-op;
for a known id the clone with the target state is persisted if and only if it
remains healthy and the persist succeeds, and the in-memory state is updated
to the target state whether or not anything was persisted (so a dropped
segment is still mutated); a failed persist surfaces the error and leaves the
index untouched. -/
theorem C7_setState (m : Meta) (segmentID : Int) (targetState : SegmentState) :
    (m.segments.getSegment segmentID = none →
      m.setState segmentID targetState = (m, none)) ∧
    (∀ cur, m.segments.getSegment segmentID = some cur →
      (isSegmentHealthy { cur with state := targetState } = false →
        m.setState segmentID targetState
          = ({ m with segments := m.segments.setState segmentID targetState }, none)) ∧
      (isSegmentHealthy { cur with state := targetState } = true →
        (m.fuel = 0 →
          m.setState segmentID targetState = (m, some MErr.persistFailure)) ∧
        (∀ n, m.fuel = n + 1 →
          m.setState segmentID targetState
            = ({ segments := m.segments.setState segmentID targetState,
                 kv := saveSegments m.kv [{ cur with state := targetState }],
                 fuel := n }, none)))) := by
  constructor
  · intro hnone
    unfold Meta.setState
    rw [hnone]
  · intro cur hcur
    constructor
    · intro hunh
      unfold Meta.setState
      rw [hcur]
      simp only [hunh, Bool.false_eq_true, if_false]
    · intro hh
      constructor
      · intro hfuel
        unfold Meta.setState
        rw [hcur]
        simp only [hh, if_true]
        rw [catalogCall_fail m _ hfuel]
      · intro n hfuel
        unfold Meta.setState
        rw [hcur]
        simp only [hh, if_true]
        rw [catalogCall_ok m _ n hfuel]

/-- Witness for C7 (amended) at a concrete healthy segment. -/
theorem C7_witness :
    (wMeta [(1, wSegBase)] 1).setState 1 SegmentState.flushed
      = ({ segments := (wMeta [(1, wSegBase)] 1).segments.setState 1 SegmentState.flushed,
           kv := saveSegments (wMeta [(1, wSegBase)] 1).kv
             [{ wSegBase with state := SegmentState.flushed }],
           fuel := 0 }, none) :=
  (((C7_setState (wMeta [(1, wSegBase)] 1) 1 SegmentState.flushed).2 wSegBase
    (by decide)).2 (by decide)).2 0 rfl

/-- C1 counterexample: `UpdateFlushSegmentsInfo` with `importing = true`
replaces the in-memory row count *before* the persisted write, so a persist
failure surfaces the error with the in-memory index already changed. -/
theorem C1_counterexample :
    ((wMeta [(1, wSegBase)] 0).updateFlushSegmentsInfo 1 false false true
        [] [] [] [] [] 0).2 = some MErr.persistFailure ∧
    ((wMeta [(1, wSegBase)] 0).updateFlushSegmentsInfo 1 false false true
        [] [] [] [] [] 0).1.segments.getSegment 1
      = some { wSegBase with numOfRows := 5 } ∧
    (wMeta [(1, wSegBase)] 0).segments.getSegment 1 = some wSegBase ∧
    ((wMeta [(1, wSegBase)] 0).updateFlushSegmentsInfo 1 false false true
        [] [] [] [] [] 0).1.segments ≠ (wMeta [(1, wSegBase)] 0).segments := by
  decide

/-- C1 (amended): on a persistence failure `AddSegment`, `SetState`,
`UpdateDropChannelSegmentInfo`, and `UpdateFlushSegmentsInfo` with
`importing = false` return the error with the in-memory segment index exactly
as before the call; the `importing = true` row-count update of
`UpdateFlushSegmentsInfo` is the one exception (see the counterexample). -/
theorem C1_persistFirst (m : Meta) (segment : SegmentInfo) (segmentID : Int)
    (targetState : SegmentState) (channel : String) (segs : List SegmentInfo)
    (flushed dropped : Bool) (binlogs statslogs deltalogs : List FieldBinlog)
    (checkpoints : List CheckPoint) (startPositions : List SegmentStartPosition)
    (now : Nat) :
    ((m.addSegment segment).2.isSome = true →
      (m.addSegment segment).1.segments = m.segments) ∧
    ((m.setState segmentID targetState).2.isSome = true →
      (m.setState segmentID targetState).1.segments = m.segments) ∧
    ((m.updateDropChannelSegmentInfo channel segs).2.isSome = true →
      (m.updateDropChannelSegmentInfo channel segs).1.segments = m.segments) ∧
    ((m.updateFlushSegmentsInfo segmentID flushed dropped false binlogs statslogs
        deltalogs checkpoints startPositions now).2.isSome = true →
      (m.updateFlushSegmentsInfo segmentID flushed dropped false binlogs statslogs
        deltalogs checkpoints startPositions now).1.segments = m.segments) := by
  refine ⟨?_, ?_, ?_, ?_⟩
  · intro h
    cases hf : m.fuel with
    | zero =>
        rw [addSegment_fail m segment hf]
    | succ n =>
        rw [addSegment_ok m segment n hf] at h
        simp at h
  · intro h
    have hc := C7_setState m segmentID targetState
    rcases hs : m.segments.getSegment segmentID with _ | cur
    · rw [hc.1 hs] at h
      simp at h
    · have hcur := hc.2 cur hs
      by_cases hh : isSegmentHealthy { cur with state := targetState }
      · cases hf : m.fuel with
        | zero =>
            rw [(hcur.2 hh).1 hf]
        | succ n =>
            rw [(hcur.2 hh).2 n hf] at h
            simp at h
      · rw [hcur.1 (by simpa using hh)] at h
        simp at h
  · intro h
    unfold Meta.updateDropChannelSegmentInfo at h ⊢
    cases hf : m.fuel with
    | zero =>
        rw [batchSaveDrop_fail0 m channel _ hf]
    | succ n =>
        cases n with
        | zero =>
            rw [batchSaveDrop_fail1 m channel _ hf]
        | succ n2 =>
            rw [batchSaveDrop_ok m channel _ n2 hf] at h
            simp at h
  · intro h
    rcases hs : m.segments.getSegment segmentID with _ | cur
    · rw [updateFlush_notFound m segmentID flushed dropped binlogs statslogs deltalogs
        checkpoints startPositions now hs] at h
      simp at h
    · by_cases hh : isSegmentHealthy cur
      · cases hf : m.fuel with
        | zero =>
            rw [updateFlush_fail m segmentID cur flushed dropped binlogs statslogs deltalogs
              checkpoints startPositions now hs hh hf]
        | succ n =>
            rw [updateFlush_ok m segmentID cur flushed dropped binlogs statslogs deltalogs
              checkpoints startPositions now n hs hh hf] at h
            simp at h
      · rw [updateFlush_unhealthy m segmentID cur flushed dropped binlogs statslogs deltalogs
          checkpoints startPositions now hs (by simpa using hh)] at h
        simp at h

/-- Witness for C1 (amended) at a fuel-exhausted concrete catalog: all four
operations fail their persist and each leaves the index unchanged. -/
theorem C1_witness :
    ((wMeta [(1, wSegBase)] 0).addSegment { wSegBase with id := 2 }).1.segments
      = (wMeta [(1, wSegBase)] 0).segments ∧
    ((wMeta [(1, wSegBase)] 0).setState 1 SegmentState.flushed).1.segments
      = (wMeta [(1, wSegBase)] 0).segments ∧
    ((wMeta [(1, wSegBase)] 0).updateDropChannelSegmentInfo "ch" []).1.segments
      = (wMeta [(1, wSegBase)] 0).segments ∧
    ((wMeta [(1, wSegBase)] 0).updateFlushSegmentsInfo 1 true false false
        [] [] [] [] [] 0).1.segments = (wMeta [(1, wSegBase)] 0).segments := by
  have h := C1_persistFirst (wMeta [(1, wSegBase)] 0) { wSegBase with id := 2 } 1
    SegmentState.flushed "ch" [] true false [] [] [] [] [] 0
  exact ⟨h.1 (by decide), h.2.1 (by decide), h.2.2.1 (by decide), h.2.2.2 (by decide)⟩

/-- C2 counterexample: merging an incoming binlog fragment whose path is
already recorded for the field appends the path again — after the call the
path `"a"` appears twice in field 1's binlog list, so there is no path-level
deduplication. -/
theorem C2_counterexample :
    Meta.updateFlushSegmentsInfo (wMeta [(1, { wSegBase with binlogs := [{ fieldID := 1, binlogs := [{ logPath := "a" }] }] })] 1) 1 false false false [{ fieldID := 1, binlogs := [{ logPath := "a" }] }] [] [] [] [] 0
      = ({ segments := ⟨[(1, { wSegBase with binlogs := [{ fieldID := 1, binlogs := [{ logPath := "a" }, { logPath := "a" }] }] })]⟩,
           kv := ⟨[(1, { wSegBase with binlogs := [{ fieldID := 1, binlogs := [{ logPath := "a" }, { logPath := "a" }] }] })], []⟩,
           fuel := 0 }, none) := by
  decide

/-- C2 (amended): `UpdateFlushSegmentsInfo` merges incoming binlog and
deltalog fragments by field id by *appending* the incoming paths after the
field's existing ones with no deduplication (a path already present is
appended again), and overwrites the statslogs exactly when the incoming
statslog batch is non-empty. -/
theorem C2_flushMerge (m : Meta) (segmentID : Int) (s : SegmentInfo)
    (flushed dropped : Bool) (binlogs statslogs deltalogs : List FieldBinlog)
    (now : Nat) (n : Nat)
    (hseg : m.segments.getSegment segmentID = some s) (hh : isSegmentHealthy s = true)
    (hfuel : m.fuel = n + 1)
    (hndB : (s.binlogs.map FieldBinlog.fieldID).Nodup)
    (hndD : (s.deltalogs.map FieldBinlog.fieldID).Nodup) :
    (m.updateFlushSegmentsInfo segmentID flushed dropped false binlogs statslogs deltalogs
      [] [] now).2 = none ∧
    ∃ s', (m.updateFlushSegmentsInfo segmentID flushed dropped false binlogs statslogs
        deltalogs [] [] now).1.segments.getSegment segmentID = some s' ∧
      (∀ f, fieldPaths f s'.binlogs = fieldPaths f s.binlogs ++ fieldPaths f binlogs) ∧
      (∀ f, fieldPaths f s'.deltalogs = fieldPaths f s.deltalogs ++ fieldPaths f deltalogs) ∧
      s'.statslogs = (if 0 < statslogs.length then statslogs else s.statslogs) := by
  rw [updateFlush_ok m segmentID s flushed dropped binlogs statslogs deltalogs [] [] now n
    hseg hh hfuel]
  have hmods : flushModSegments m segmentID
      (flushClone s flushed dropped binlogs statslogs deltalogs now) [] []
      = [(segmentID, flushClone s flushed dropped binlogs statslogs deltalogs now)] := rfl
  rw [hmods]
  refine ⟨rfl, flushClone s flushed dropped binlogs statslogs deltalogs now, ?_, ?_, ?_, ?_⟩
  · show (m.segments.setSegment segmentID _).getSegment segmentID = _
    unfold SegmentsInfo.setSegment SegmentsInfo.getSegment
    exact alookup_aupsert_self _ _ _
  · intro f
    rw [flushClone_binlogs]
    exact (mergeFieldBinlogs_spec binlogs s.binlogs hndB).2 f
  · intro f
    rw [flushClone_deltalogs]
    exact (mergeFieldBinlogs_spec deltalogs s.deltalogs hndD).2 f
  · exact flushClone_statslogs s flushed dropped binlogs statslogs deltalogs now

/-- Witness for C2 (amended) at a concrete catalog. -/
theorem C2_witness :
    (Meta.updateFlushSegmentsInfo (wMeta [(1, wSegBase)] 1) 1 false false false [{ fieldID := 2, binlogs := [{ logPath := "b" }] }] [] [] [] [] 0).2 = none ∧
    ∃ s' : SegmentInfo, (Meta.updateFlushSegmentsInfo (wMeta [(1, wSegBase)] 1) 1 false false false [{ fieldID := 2, binlogs := [{ logPath := "b" }] }] [] [] [] [] 0).1.segments.getSegment 1 = some s' ∧
      (∀ f, fieldPaths f s'.binlogs = fieldPaths f wSegBase.binlogs ++ fieldPaths f [{ fieldID := 2, binlogs := [{ logPath := "b" }] }]) ∧
      (∀ f, fieldPaths f s'.deltalogs = fieldPaths f wSegBase.deltalogs ++ fieldPaths f []) ∧
      s'.statslogs = (if 0 < (List.length ([] : List FieldBinlog)) then ([] : List FieldBinlog) else wSegBase.statslogs) :=
  C2_flushMerge (wMeta [(1, wSegBase)] 1) 1 wSegBase false false
    [{ fieldID := 2, binlogs := [{ logPath := "b" }] }] [] [] 0 0
    (by decide) (by decide) rfl (by decide) (by decide)

theorem flushClone_nil (s : SegmentInfo) (now : Nat) :
    flushClone s false false [] [] [] now = s := rfl

theorem aupsert_single {α : Type} (k : Int) (v w : α) :
    aupsert [(k, v)] k w = [(k, w)] := by
  simp [aupsert]

theorem applyCheckpoints_single (m : Meta) (sid : Int) (s : SegmentInfo)
    (pos : MsgPosition) (nr : Int) :
    applyCheckpoints m [(sid, s)] [{ segmentID := sid, position := pos, numOfRows := nr }]
      = (match s.dmlPosition with
         | some d =>
            if pos.timestamp ≤ d.timestamp then [(sid, s)]
            else [(sid, { s with dmlPosition := some pos, numOfRows := nr })]
         | none => [(sid, { s with dmlPosition := some pos, numOfRows := nr })]) := by
  cases hd : s.dmlPosition with
  | none => simp [applyCheckpoints, getClonedSegment, alookup, hd, aupsert]
  | some d =>
      by_cases hle : pos.timestamp ≤ d.timestamp
      · simp [applyCheckpoints, getClonedSegment, alookup, hd, hle]
      · simp [applyCheckpoints, getClonedSegment, alookup, hd, hle, aupsert]

/-- C3: a checkpoint inside `UpdateFlushSegmentsInfo` is applied only when its
timestamp is strictly newer than the stored dml position; a stale (older or
equal) checkpoint is silently ignored — the call still succeeds and the
in-memory index is unchanged — and calling the operation twice with the same
checkpoint leaves the stored segment (hence its checkpoint) unchanged after
the second call. -/
theorem C3_checkpointStale (m : Meta) (segmentID : Int) (s : SegmentInfo)
    (pos : MsgPosition) (nr : Int) (now : Nat) (n : Nat)
    (hseg : m.segments.getSegment segmentID = some s) (hh : isSegmentHealthy s = true)
    (hfuel : m.fuel = n + 2) :
    (∀ d, s.dmlPosition = some d → pos.timestamp ≤ d.timestamp →
      (Meta.updateFlushSegmentsInfo m segmentID false false false [] [] [] [{ segmentID := segmentID, position := pos, numOfRows := nr }] [] now).2 = none ∧
      (Meta.updateFlushSegmentsInfo m segmentID false false false [] [] [] [{ segmentID := segmentID, position := pos, numOfRows := nr }] [] now).1.segments = m.segments) ∧
    ((Meta.updateFlushSegmentsInfo m segmentID false false false [] [] [] [{ segmentID := segmentID, position := pos, numOfRows := nr }] [] now).2 = none ∧
     (Meta.updateFlushSegmentsInfo (Meta.updateFlushSegmentsInfo m segmentID false false false [] [] [] [{ segmentID := segmentID, position := pos, numOfRows := nr }] [] now).1 segmentID false false false [] [] [] [{ segmentID := segmentID, position := pos, numOfRows := nr }] [] now).2 = none ∧
     (Meta.updateFlushSegmentsInfo (Meta.updateFlushSegmentsInfo m segmentID false false false [] [] [] [{ segmentID := segmentID, position := pos, numOfRows := nr }] [] now).1 segmentID false false false [] [] [] [{ segmentID := segmentID, position := pos, numOfRows := nr }] [] now).1.segments = (Meta.updateFlushSegmentsInfo m segmentID false false false [] [] [] [{ segmentID := segmentID, position := pos, numOfRows := nr }] [] now).1.segments) := by
  have hmods : flushModSegments m segmentID (flushClone s false false [] [] [] now)
      [{ segmentID := segmentID, position := pos, numOfRows := nr }] []
      = applyCheckpoints m [(segmentID, s)]
          [{ segmentID := segmentID, position := pos, numOfRows := nr }] := by
    rw [flushClone_nil]
    rfl
  have hcall1 := updateFlush_ok m segmentID s false false [] [] []
    [{ segmentID := segmentID, position := pos, numOfRows := nr }] [] now (n + 1)
    hseg hh hfuel
  constructor
  · intro d hd hle
    rw [hcall1, hmods, applyCheckpoints_single, hd]
    simp only [if_pos hle, List.foldl_cons, List.foldl_nil]
    exact ⟨trivial, setSegment_self m.segments segmentID s hseg⟩
  · -- the stored value after the first call, in all dml cases
    have hmain : ∀ s1 : SegmentInfo,
        (applyCheckpoints m [(segmentID, s)]
          [{ segmentID := segmentID, position := pos, numOfRows := nr }]
          = [(segmentID, s1)]) →
        isSegmentHealthy s1 = true →
        (∃ d2, s1.dmlPosition = some d2 ∧ pos.timestamp ≤ d2.timestamp) →
        (Meta.updateFlushSegmentsInfo m segmentID false false false [] [] [] [{ segmentID := segmentID, position := pos, numOfRows := nr }] [] now).2 = none ∧
        (Meta.updateFlushSegmentsInfo (Meta.updateFlushSegmentsInfo m segmentID false false false [] [] [] [{ segmentID := segmentID, position := pos, numOfRows := nr }] [] now).1 segmentID false false false [] [] [] [{ segmentID := segmentID, position := pos, numOfRows := nr }] [] now).2 = none ∧
        (Meta.updateFlushSegmentsInfo (Meta.updateFlushSegmentsInfo m segmentID false false false [] [] [] [{ segmentID := segmentID, position := pos, numOfRows := nr }] [] now).1 segmentID false false false [] [] [] [{ segmentID := segmentID, position := pos, numOfRows := nr }] [] now).1.segments = (Meta.updateFlushSegmentsInfo m segmentID false false false [] [] [] [{ segmentID := segmentID, position := pos, numOfRows := nr }] [] now).1.segments := by
      intro s1 hmods1 hh1 hstale
      obtain ⟨d2, hd2, hle2⟩ := hstale
      rw [hcall1, hmods, hmods1]
      simp only [List.foldl_cons, List.foldl_nil]
      have hseg2 : (m.segments.setSegment segmentID s1).getSegment segmentID = some s1 := by
        unfold SegmentsInfo.setSegment SegmentsInfo.getSegment
        exact alookup_aupsert_self _ _ _
      have hcall2 := updateFlush_ok
        ({ segments := m.segments.setSegment segmentID s1,
           kv := saveSegments m.kv (List.map Prod.snd [(segmentID, s1)]),
           fuel := n + 1 } : Meta)
        segmentID s1 false false [] [] []
        [{ segmentID := segmentID, position := pos, numOfRows := nr }] [] now n hseg2 hh1 rfl
      have hmods2 : flushModSegments
          ({ segments := m.segments.setSegment segmentID s1,
             kv := saveSegments m.kv (List.map Prod.snd [(segmentID, s1)]),
             fuel := n + 1 } : Meta) segmentID
          (flushClone s1 false false [] [] [] now)
          [{ segmentID := segmentID, position := pos, numOfRows := nr }] []
          = [(segmentID, s1)] := by
        rw [flushClone_nil]
        rw [show flushModSegments
            ({ segments := m.segments.setSegment segmentID s1,
               kv := saveSegments m.kv (List.map Prod.snd [(segmentID, s1)]),
               fuel := n + 1 } : Meta) segmentID s1
            [{ segmentID := segmentID, position := pos, numOfRows := nr }] []
            = applyCheckpoints
                ({ segments := m.segments.setSegment segmentID s1,
                   kv := saveSegments m.kv (List.map Prod.snd [(segmentID, s1)]),
                   fuel := n + 1 } : Meta) [(segmentID, s1)]
                [{ segmentID := segmentID, position := pos, numOfRows := nr }] from rfl]
        rw [applyCheckpoints_single, hd2]
        simp [if_pos hle2]
      rw [hmods2] at hcall2
      refine ⟨trivial, ?_, ?_⟩
      · rw [hcall2]
      · rw [hcall2]
        simp only [List.foldl_cons, List.foldl_nil]
        exact setSegment_self _ _ _ hseg2
    rcases hdml : s.dmlPosition with _ | d
    · refine hmain { s with dmlPosition := some pos, numOfRows := nr } ?_ hh ⟨pos, rfl, le_refl _⟩
      rw [applyCheckpoints_single, hdml]
    · by_cases hle : pos.timestamp ≤ d.timestamp
      · refine hmain s ?_ hh ⟨d, hdml, hle⟩
        rw [applyCheckpoints_single, hdml]
        simp [if_pos hle]
      · refine hmain { s with dmlPosition := some pos, numOfRows := nr } ?_ hh
          ⟨pos, rfl, le_refl _⟩
        rw [applyCheckpoints_single, hdml]
        simp [if_neg hle]

/-- Witness for C3 at a concrete catalog with an equal-timestamp
checkpoint. -/
theorem C3_witness :
    ((wMeta [(1, { wSegBase with dmlPosition := some { msgID := [1], timestamp := 5 } })] 2).updateFlushSegmentsInfo 1 false false false [] [] [] [{ segmentID := 1, position := { msgID := [2], timestamp := 5 }, numOfRows := 9 }] [] 0).2 = none ∧
    ((wMeta [(1, { wSegBase with dmlPosition := some { msgID := [1], timestamp := 5 } })] 2).updateFlushSegmentsInfo 1 false false false [] [] [] [{ segmentID := 1, position := { msgID := [2], timestamp := 5 }, numOfRows := 9 }] [] 0).1.segments
      = (wMeta [(1, { wSegBase with dmlPosition := some { msgID := [1], timestamp := 5 } })] 2).segments := by
  have h := C3_checkpointStale
    (wMeta [(1, { wSegBase with dmlPosition := some { msgID := [1], timestamp := 5 } })] 2)
    1 { wSegBase with dmlPosition := some { msgID := [1], timestamp := 5 } }
    { msgID := [2], timestamp := 5 } 9 0 0 (by decide) (by decide) rfl
  exact h.1 { msgID := [1], timestamp := 5 } (by decide) (by decide)

theorem wf_id (si : SegmentsInfo) (k : Int) (v : SegmentInfo)
    (hwf : SegmentsWF si) (h : si.getSegment k = some v) : v.id = k :=
  hwf.2 (k, v) (mem_of_alookup _ _ _ h)

theorem getSegment_setSegment_self (si : SegmentsInfo) (k : Int) (v : SegmentInfo) :
    (si.setSegment k v).getSegment k = some v := by
  unfold SegmentsInfo.setSegment SegmentsInfo.getSegment
  exact alookup_aupsert_self _ _ _

theorem getSegment_setSegment_ne (si : SegmentsInfo) (k k' : Int) (v : SegmentInfo)
    (h : k ≠ k') : (si.setSegment k v).getSegment k' = si.getSegment k' := by
  unfold SegmentsInfo.setSegment SegmentsInfo.getSegment
  exact alookup_aupsert_ne _ _ _ _ h

/-- C5: applying a two-source compaction to the catalog marks both sources
Dropped in the in-memory index; a zero-row result inserts no new segment into
the index, while a positive-row result inserts the new segment, healthy, with
`compactionFrom` equal to the list of source ids. -/
theorem C5_compactionApply (m : Meta) (cl1 cl2 : CompactionSegmentBinlogs)
    (result : CompactionResult) (now : Nat) (s1 s2 : SegmentInfo)
    (h1 : m.segments.getSegment cl1.segmentID = some s1)
    (h2 : m.segments.getSegment cl2.segmentID = some s2)
    (hwf : SegmentsWF m.segments)
    (hfresh : m.segments.getSegment result.segmentID = none)
    (hne : cl1.segmentID ≠ cl2.segmentID) :
    ∃ old newSeg,
      m.getCompleteCompactionMeta [cl1, cl2] result now
        = (m, some (old,
            [{ s1 with state := SegmentState.dropped, droppedAt := now },
             { s2 with state := SegmentState.dropped, droppedAt := now }], newSeg)) ∧
      newSeg.id = result.segmentID ∧
      ((∃ t1, (m.alterInMemoryMetaAfterCompaction newSeg
          [{ s1 with state := SegmentState.dropped, droppedAt := now },
           { s2 with state := SegmentState.dropped, droppedAt := now }]).segments.getSegment
            cl1.segmentID = some t1 ∧ t1.state = SegmentState.dropped) ∧
       (∃ t2, (m.alterInMemoryMetaAfterCompaction newSeg
          [{ s1 with state := SegmentState.dropped, droppedAt := now },
           { s2 with state := SegmentState.dropped, droppedAt := now }]).segments.getSegment
            cl2.segmentID = some t2 ∧ t2.state = SegmentState.dropped) ∧
       (result.numOfRows = 0 →
          (m.alterInMemoryMetaAfterCompaction newSeg
            [{ s1 with state := SegmentState.dropped, droppedAt := now },
             { s2 with state := SegmentState.dropped, droppedAt := now }]).segments.getSegment
              result.segmentID = none) ∧
       (0 < result.numOfRows →
          ∃ t, (m.alterInMemoryMetaAfterCompaction newSeg
            [{ s1 with state := SegmentState.dropped, droppedAt := now },
             { s2 with state := SegmentState.dropped, droppedAt := now }]).segments.getSegment
              result.segmentID = some t ∧
            t.compactionFrom = [cl1.segmentID, cl2.segmentID] ∧
            isSegmentHealthy t = true)) := by
  have hid1 : s1.id = cl1.segmentID := wf_id m.segments _ _ hwf h1
  have hid2 : s2.id = cl2.segmentID := wf_id m.segments _ _ hwf h2
  have hne1 : cl1.segmentID ≠ result.segmentID := by
    intro he
    rw [he] at h1
    rw [h1] at hfresh
    exact Option.noConfusion hfresh
  have hne2 : cl2.segmentID ≠ result.segmentID := by
    intro he
    rw [he] at h2
    rw [h2] at hfresh
    exact Option.noConfusion hfresh
  unfold Meta.getCompleteCompactionMeta
  simp only [List.foldl_cons, List.foldl_nil, h1, h2, List.nil_append, List.map_cons,
    List.map_nil, List.cons_append, List.singleton_append]
  refine ⟨[s1, s2], _, rfl, rfl, ?_, ?_, ?_, ?_⟩
  · -- source 1 dropped in memory
    refine ⟨{ s1 with state := SegmentState.dropped, droppedAt := now }, ?_, rfl⟩
    unfold Meta.alterInMemoryMetaAfterCompaction
    simp only [List.foldl_cons, List.foldl_nil]
    by_cases hr : 0 < result.numOfRows
    · simp only [if_pos hr]
      rw [show ({ s1 with state := SegmentState.dropped, droppedAt := now } : SegmentInfo).id
          = cl1.segmentID from hid1,
        show ({ s2 with state := SegmentState.dropped, droppedAt := now } : SegmentInfo).id
          = cl2.segmentID from hid2]
      rw [getSegment_setSegment_ne _ _ _ _ (Ne.symm hne1)]
      rw [getSegment_setSegment_ne _ _ _ _ (Ne.symm hne)]
      exact getSegment_setSegment_self _ _ _
    · simp only [if_neg hr]
      rw [show ({ s1 with state := SegmentState.dropped, droppedAt := now } : SegmentInfo).id
          = cl1.segmentID from hid1,
        show ({ s2 with state := SegmentState.dropped, droppedAt := now } : SegmentInfo).id
          = cl2.segmentID from hid2]
      rw [getSegment_setSegment_ne _ _ _ _ (Ne.symm hne)]
      exact getSegment_setSegment_self _ _ _
  · -- source 2 dropped in memory
    refine ⟨{ s2 with state := SegmentState.dropped, droppedAt := now }, ?_, rfl⟩
    unfold Meta.alterInMemoryMetaAfterCompaction
    simp only [List.foldl_cons, List.foldl_nil]
    by_cases hr : 0 < result.numOfRows
    · simp only [if_pos hr]
      rw [show ({ s2 with state := SegmentState.dropped, droppedAt := now } : SegmentInfo).id
          = cl2.segmentID from hid2]
      rw [getSegment_setSegment_ne _ _ _ _ (Ne.symm hne2)]
      exact getSegment_setSegment_self _ _ _
    · simp only [if_neg hr]
      rw [show ({ s2 with state := SegmentState.dropped, droppedAt := now } : SegmentInfo).id
          = cl2.segmentID from hid2]
      exact getSegment_setSegment_self _ _ _
  · -- zero rows: no new segment visible
    intro hz
    unfold Meta.alterInMemoryMetaAfterCompaction
    simp only [List.foldl_cons, List.foldl_nil]
    rw [if_neg (by rw [hz]; exact lt_irrefl 0)]
    rw [show ({ s1 with state := SegmentState.dropped, droppedAt := now } : SegmentInfo).id
        = cl1.segmentID from hid1,
      show ({ s2 with state := SegmentState.dropped, droppedAt := now } : SegmentInfo).id
        = cl2.segmentID from hid2]
    rw [getSegment_setSegment_ne _ _ _ _ hne2]
    rw [getSegment_setSegment_ne _ _ _ _ hne1]
    exact hfresh
  · -- positive rows: new segment visible with ancestry
    intro hr
    apply Exists.intro
    refine ⟨?_, ?_, ?_⟩
    · unfold Meta.alterInMemoryMetaAfterCompaction
      simp only [List.foldl_cons, List.foldl_nil]
      rw [if_pos hr]
      exact getSegment_setSegment_self _ _ _
    · show [s1.id, s2.id] = [cl1.segmentID, cl2.segmentID]
      rw [hid1, hid2]
    · rfl

/-- Witness for C5 at a concrete catalog with two flushed sources and a
positive-row compaction result. -/
theorem C5_witness :
    ∃ old newSeg,
      Meta.getCompleteCompactionMeta
          (wMeta [(1, { wSegBase with state := SegmentState.flushed }),
                  (2, { wSegBase with id := 2, state := SegmentState.flushed })] 0)
          [{ segmentID := 1, deltalogs := [] }, { segmentID := 2, deltalogs := [] }]
          { segmentID := 3, numOfRows := 2, insertLogs := [], field2StatslogPaths := [],
            deltalogs := [] } 77
        = (wMeta [(1, { wSegBase with state := SegmentState.flushed }),
                  (2, { wSegBase with id := 2, state := SegmentState.flushed })] 0,
           some (old,
            [{ { wSegBase with state := SegmentState.flushed } with
                state := SegmentState.dropped, droppedAt := 77 },
             { { wSegBase with id := 2, state := SegmentState.flushed } with
                state := SegmentState.dropped, droppedAt := 77 }], newSeg)) ∧
      newSeg.id = (3 : Int) ∧
      ((∃ t1, (Meta.alterInMemoryMetaAfterCompaction
          (wMeta [(1, { wSegBase with state := SegmentState.flushed }),
                  (2, { wSegBase with id := 2, state := SegmentState.flushed })] 0) newSeg
          [{ { wSegBase with state := SegmentState.flushed } with
              state := SegmentState.dropped, droppedAt := 77 },
           { { wSegBase with id := 2, state := SegmentState.flushed } with
              state := SegmentState.dropped, droppedAt := 77 }]).segments.getSegment 1
            = some t1 ∧ t1.state = SegmentState.dropped) ∧
       (∃ t2, (Meta.alterInMemoryMetaAfterCompaction
          (wMeta [(1, { wSegBase with state := SegmentState.flushed }),
                  (2, { wSegBase with id := 2, state := SegmentState.flushed })] 0) newSeg
          [{ { wSegBase with state := SegmentState.flushed } with
              state := SegmentState.dropped, droppedAt := 77 },
           { { wSegBase with id := 2, state := SegmentState.flushed } with
              state := SegmentState.dropped, droppedAt := 77 }]).segments.getSegment 2
            = some t2 ∧ t2.state = SegmentState.dropped) ∧
       ((2 : Int) = 0 →
          (Meta.alterInMemoryMetaAfterCompaction
          (wMeta [(1, { wSegBase with state := SegmentState.flushed }),
                  (2, { wSegBase with id := 2, state := SegmentState.flushed })] 0) newSeg
          [{ { wSegBase with state := SegmentState.flushed } with
              state := SegmentState.dropped, droppedAt := 77 },
           { { wSegBase with id := 2, state := SegmentState.flushed } with
              state := SegmentState.dropped, droppedAt := 77 }]).segments.getSegment 3 = none) ∧
       ((0 : Int) < 2 →
          ∃ t, (Meta.alterInMemoryMetaAfterCompaction
          (wMeta [(1, { wSegBase with state := SegmentState.flushed }),
                  (2, { wSegBase with id := 2, state := SegmentState.flushed })] 0) newSeg
          [{ { wSegBase with state := SegmentState.flushed } with
              state := SegmentState.dropped, droppedAt := 77 },
           { { wSegBase with id := 2, state := SegmentState.flushed } with
              state := SegmentState.dropped, droppedAt := 77 }]).segments.getSegment 3
            = some t ∧
            t.compactionFrom = [(1 : Int), 2] ∧ isSegmentHealthy t = true)) :=
  C5_compactionApply
    (wMeta [(1, { wSegBase with state := SegmentState.flushed }),
            (2, { wSegBase with id := 2, state := SegmentState.flushed })] 0)
    { segmentID := 1, deltalogs := [] } { segmentID := 2, deltalogs := [] }
    { segmentID := 3, numOfRows := 2, insertLogs := [], field2StatslogPaths := [],
      deltalogs := [] } 77
    { wSegBase with state := SegmentState.flushed }
    { wSegBase with id := 2, state := SegmentState.flushed }
    (by decide) (by decide) ⟨by decide, by decide⟩ (by decide) (by decide)

theorem aupsert_mem {κ α : Type} [DecidableEq κ]
    (l : List (κ × α)) (key : κ) (val : α) (k : κ) (v : α)
    (h : (k, v) ∈ aupsert l key val) : (k, v) ∈ l ∨ (k = key ∧ v = val) := by
  induction l with
  | nil =>
      simp only [aupsert, List.mem_singleton] at h
      exact Or.inr ⟨congrArg Prod.fst h, congrArg Prod.snd h⟩
  | cons p rest ih =>
      obtain ⟨k₀, w⟩ := p
      by_cases h₀ : k₀ = key
      · rw [aupsert_cons, if_pos h₀] at h
        rcases List.mem_cons.mp h with hx | hx
        · exact Or.inr ⟨congrArg Prod.fst hx, congrArg Prod.snd hx⟩
        · exact Or.inl (List.mem_cons.mpr (Or.inr hx))
      · rw [aupsert_cons, if_neg h₀] at h
        rcases List.mem_cons.mp h with hx | hx
        · exact Or.inl (List.mem_cons.mpr (Or.inl hx))
        · rcases ih hx with hy | hy
          · exact Or.inl (List.mem_cons.mpr (Or.inr hy))
          · exact Or.inr hy

theorem acontains_aupsert_mono {κ α : Type} [DecidableEq κ]
    (l : List (κ × α)) (key k : κ) (val : α) (h : acontains l k = true) :
    acontains (aupsert l key val) k = true := by
  unfold acontains at h ⊢
  by_cases hk : key = k
  · subst hk
    rw [alookup_aupsert_self]
    rfl
  · rw [alookup_aupsert_ne _ _ _ _ hk]
    exact h

theorem acontains_aupsert_self {κ α : Type} [DecidableEq κ]
    (l : List (κ × α)) (key : κ) (val : α) :
    acontains (aupsert l key val) key = true := by
  unfold acontains
  rw [alookup_aupsert_self]
  rfl

theorem setSegment_fold_lookup (mods : List (Int × SegmentInfo)) :
    ∀ si : SegmentsInfo, (mods.map Prod.fst).Nodup →
    (∀ k v, alookup mods k = some v →
      (mods.foldl (fun si p => si.setSegment p.1 p.2) si).getSegment k = some v) ∧
    (∀ k, alookup mods k = none →
      (mods.foldl (fun si p => si.setSegment p.1 p.2) si).getSegment k = si.getSegment k) := by
  induction mods with
  | nil =>
      intro si _
      exact ⟨fun k v hk => by simp [alookup] at hk, fun k _ => rfl⟩
  | cons p rest ih =>
      intro si hnd
      obtain ⟨k₀, v₀⟩ := p
      simp only [List.map_cons, List.nodup_cons] at hnd
      obtain ⟨ih1, ih2⟩ := ih (si.setSegment k₀ v₀) hnd.2
      simp only [List.foldl_cons]
      constructor
      · intro k v hk
        by_cases hkk : k₀ = k
        · subst hkk
          rw [show alookup ((k₀, v₀) :: rest) k₀ = some v₀ from by simp [alookup]] at hk
          rw [Option.some.injEq] at hk
          subst hk
          rw [ih2 k₀ (alookup_eq_none_of_not_mem_keys rest k₀ hnd.1)]
          exact getSegment_setSegment_self _ _ _
        · rw [show alookup ((k₀, v₀) :: rest) k = alookup rest k from by
            simp [alookup, hkk]] at hk
          exact ih1 k v hk
      · intro k hk
        have hkk : k₀ ≠ k := by
          intro he
          subst he
          simp [alookup] at hk
        rw [show alookup ((k₀, v₀) :: rest) k = alookup rest k from by
          simp [alookup, hkk]] at hk
        rw [ih2 k hk]
        exact getSegment_setSegment_ne _ _ _ _ hkk

theorem setSegment_fold_mem (mods : List (Int × SegmentInfo)) :
    ∀ (si : SegmentsInfo) (k : Int) (v : SegmentInfo),
    (k, v) ∈ (mods.foldl (fun si p => si.setSegment p.1 p.2) si).segments →
    (k, v) ∈ si.segments ∨ (k, v) ∈ mods := by
  induction mods with
  | nil => exact fun si k v h => Or.inl h
  | cons p rest ih =>
      intro si k v h
      obtain ⟨k₀, v₀⟩ := p
      simp only [List.foldl_cons] at h
      rcases ih (si.setSegment k₀ v₀) k v h with hx | hx
      · rcases aupsert_mem si.segments k₀ v₀ k v hx with hy | hy
        · exact Or.inl hy
        · exact Or.inr (List.mem_cons.mpr (Or.inl (by rw [hy.1, hy.2])))
      · exact Or.inr (List.mem_cons.mpr (Or.inr hx))

theorem setSegment_fold_keys_nodup (mods : List (Int × SegmentInfo)) :
    ∀ si : SegmentsInfo, (si.segments.map Prod.fst).Nodup →
    (((mods.foldl (fun si p => si.setSegment p.1 p.2) si).segments.map Prod.fst)).Nodup := by
  induction mods with
  | nil => exact fun si h => h
  | cons p rest ih =>
      intro si h
      simp only [List.foldl_cons]
      exact ih _ (aupsert_keys_nodup _ _ _ h)

theorem setSegment_fold_id (mods : List (Int × SegmentInfo)) :
    ∀ si : SegmentsInfo, (∀ p ∈ mods, si.getSegment p.1 = some p.2) →
    mods.foldl (fun si p => si.setSegment p.1 p.2) si = si := by
  induction mods with
  | nil => exact fun si _ => rfl
  | cons p rest ih =>
      intro si h
      obtain ⟨k₀, v₀⟩ := p
      simp only [List.foldl_cons]
      have hself : si.setSegment k₀ v₀ = si :=
        setSegment_self si k₀ v₀ (h (k₀, v₀) (List.mem_cons_self _ _))
      rw [hself]
      exact ih si (fun q hq => h q (List.mem_cons_of_mem _ hq))

theorem saveSegments_fold_lookup (xs : List SegmentInfo) :
    ∀ l : List (Int × SegmentInfo), (xs.map SegmentInfo.id).Nodup →
    (∀ v ∈ xs, alookup (xs.foldl (fun l s => aupsert l s.id s) l) v.id = some v) ∧
    (∀ k, k ∉ xs.map SegmentInfo.id →
      alookup (xs.foldl (fun l s => aupsert l s.id s) l) k = alookup l k) := by
  induction xs with
  | nil =>
      intro l _
      exact ⟨fun v hv => absurd hv (List.not_mem_nil v), fun k _ => rfl⟩
  | cons x rest ih =>
      intro l hnd
      simp only [List.map_cons, List.nodup_cons] at hnd
      obtain ⟨ih1, ih2⟩ := ih (aupsert l x.id x) hnd.2
      simp only [List.foldl_cons]
      constructor
      · intro v hv
        rcases List.mem_cons.mp hv with hx | hx
        · subst hx
          rw [ih2 v.id hnd.1]
          exact alookup_aupsert_self _ _ _
        · exact ih1 v hx
      · intro k hk
        simp only [List.map_cons, List.mem_cons] at hk
        push_neg at hk
        rw [ih2 k hk.2]
        exact alookup_aupsert_ne _ _ _ _ (Ne.symm hk.1)

theorem saveSegments_id (kv : KVStore) (xs : List SegmentInfo)
    (h : ∀ v ∈ xs, alookup kv.segs v.id = some v) : saveSegments kv xs = kv := by
  obtain ⟨segs, removed⟩ := kv
  unfold saveSegments
  simp only []
  have hfold : ∀ (xs : List SegmentInfo) (l : List (Int × SegmentInfo)),
      (∀ v ∈ xs, alookup l v.id = some v) →
      xs.foldl (fun l s => aupsert l s.id s) l = l := by
    intro xs
    induction xs with
    | nil => exact fun l _ => rfl
    | cons x rest ih =>
        intro l hl
        simp only [List.foldl_cons]
        rw [aupsert_self l x.id x (hl x (List.mem_cons_self _ _))]
        exact ih l (fun v hv => hl v (List.mem_cons_of_mem _ hv))
  rw [hfold xs segs (by simpa using h)]

theorem saveSegments_removedChannels (kv : KVStore) (xs : List SegmentInfo) :
    (saveSegments kv xs).removedChannels = kv.removedChannels := rfl

theorem markChannelDeleted_segs (kv : KVStore) (channel : String) :
    (markChannelDeleted kv channel).segs = kv.segs := by
  unfold markChannelDeleted
  by_cases h : channel ∈ kv.removedChannels
  · rw [if_pos h]
  · rw [if_neg h]

theorem markChannelDeleted_mem (kv : KVStore) (channel : String) :
    channel ∈ (markChannelDeleted kv channel).removedChannels := by
  unfold markChannelDeleted
  by_cases h : channel ∈ kv.removedChannels
  · rw [if_pos h]
    exact h
  · rw [if_neg h]
    simp

theorem markChannelDeleted_id (kv : KVStore) (channel : String)
    (h : channel ∈ kv.removedChannels) : markChannelDeleted kv channel = kv := by
  unfold markChannelDeleted
  rw [if_pos h]

theorem dropState_eta (s : SegmentInfo) (h : s.state = SegmentState.dropped) :
    { s with state := SegmentState.dropped } = s := by
  cases s
  simp only at h
  simp only [h]

theorem mergeDropSegment_props (m : Meta) (sd : SegmentInfo) (s : SegmentInfo)
    (h : m.mergeDropSegment sd = some s) :
    ∃ seg, m.segments.getSegment sd.id = some seg ∧ isSegmentHealthy seg = true ∧
      s.id = seg.id ∧ s.state = SegmentState.dropped ∧
      s.insertChannel = seg.insertChannel := by
  unfold Meta.mergeDropSegment at h
  rcases hg : m.segments.getSegment sd.id with _ | seg
  · rw [hg] at h
    exact Option.noConfusion h
  · rw [hg] at h
    by_cases hh : isSegmentHealthy seg
    · simp only [hh, if_true] at h
      refine ⟨seg, rfl, hh, ?_⟩
      rcases hsp : sd.startPosition with _ | sp <;> rcases hdp : sd.dmlPosition with _ | dp <;>
        simp only [hsp, hdp] at h <;>
        (rw [Option.some.injEq] at h; subst h; exact ⟨rfl, rfl, rfl⟩)
    · simp only [hh, Bool.false_eq_true, if_false] at h
      exact Option.noConfusion h

/-- Spec of the force-drop loop over the tracked segments of a channel. -/
theorem dropFold_spec (channel : String) (L : List (Int × SegmentInfo))
    (hL : ∀ p ∈ L, (p.2 : SegmentInfo).id = p.1) :
    ∀ ms, ModsWFD ms →
    ModsWFD (L.foldl
      (fun ms p =>
        if p.2.insertChannel ≠ channel then ms
        else if acontains ms p.2.id then ms
        else aupsert ms p.2.id { p.2 with state := SegmentState.dropped })
      ms) ∧
    (∀ k, acontains ms k = true →
      acontains (L.foldl
        (fun ms p =>
          if p.2.insertChannel ≠ channel then ms
          else if acontains ms p.2.id then ms
          else aupsert ms p.2.id { p.2 with state := SegmentState.dropped })
        ms) k = true) ∧
    (∀ p ∈ L, (p.2 : SegmentInfo).insertChannel = channel →
      acontains (L.foldl
        (fun ms p =>
          if p.2.insertChannel ≠ channel then ms
          else if acontains ms p.2.id then ms
          else aupsert ms p.2.id { p.2 with state := SegmentState.dropped })
        ms) p.1 = true) := by
  induction L with
  | nil =>
      intro ms hms
      exact ⟨hms, fun k hk => hk, fun p hp => absurd hp (List.not_mem_nil p)⟩
  | cons q rest ih =>
      intro ms hms
      have hq := hL q (List.mem_cons_self _ _)
      have hrest : ∀ p ∈ rest, (p.2 : SegmentInfo).id = p.1 :=
        fun p hp => hL p (List.mem_cons_of_mem _ hp)
      have step_wfd : ∀ ms, ModsWFD ms → ModsWFD
          (if q.2.insertChannel ≠ channel then ms
           else if acontains ms q.2.id then ms
           else aupsert ms q.2.id { q.2 with state := SegmentState.dropped }) := by
        intro ms hms
        by_cases hc : q.2.insertChannel ≠ channel
        · rw [if_pos hc]
          exact hms
        · rw [if_neg hc]
          by_cases hcon : acontains ms q.2.id
          · rw [if_pos hcon]
            exact hms
          · rw [if_neg hcon]
            refine ⟨aupsert_keys_nodup _ _ _ hms.1, ?_⟩
            intro p hp
            rcases aupsert_mem _ _ _ _ _ hp with hx | hx
            · exact hms.2 p hx
            · obtain ⟨hk, hv⟩ := hx
              refine ⟨?_, ?_⟩
              · rw [hv, hk]
              · rw [hv]
      have ihs := ih hrest
        (if q.2.insertChannel ≠ channel then ms
         else if acontains ms q.2.id then ms
         else aupsert ms q.2.id { q.2 with state := SegmentState.dropped })
        (step_wfd ms hms)
      obtain ⟨ih1, ih2, ih3⟩ := ihs
      simp only [List.foldl_cons]
      refine ⟨ih1, ?_, ?_⟩
      · intro k hk
        refine ih2 k ?_
        by_cases hc : q.2.insertChannel ≠ channel
        · rw [if_pos hc]
          exact hk
        · rw [if_neg hc]
          by_cases hcon : acontains ms q.2.id
          · rw [if_pos hcon]
            exact hk
          · rw [if_neg hcon]
            exact acontains_aupsert_mono _ _ _ _ hk
      · intro p hp hpc
        rcases List.mem_cons.mp hp with hx | hx
        · subst hx
          refine ih2 p.1 ?_
          rw [if_neg (by rw [hpc]; exact fun hcon => hcon rfl)]
          by_cases hcon : acontains ms p.2.id
          · rw [if_pos hcon]
            rw [← hq]
            exact hcon
          · rw [if_neg hcon]
            rw [← hq]
            exact acontains_aupsert_self _ _ _
        · exact ih3 p hx hpc

theorem dropFold_mem (channel : String) (L : List (Int × SegmentInfo)) :
    ∀ (ms : List (Int × SegmentInfo)) (k : Int) (v : SegmentInfo),
    (k, v) ∈ (L.foldl
      (fun ms p =>
        if p.2.insertChannel ≠ channel then ms
        else if acontains ms p.2.id then ms
        else aupsert ms p.2.id { p.2 with state := SegmentState.dropped })
      ms) →
    (k, v) ∈ ms ∨
      ∃ p ∈ L, k = (p.2 : SegmentInfo).id ∧
        v = { p.2 with state := SegmentState.dropped } ∧
        (p.2 : SegmentInfo).insertChannel = channel := by
  induction L with
  | nil => exact fun ms k v h => Or.inl h
  | cons q rest ih =>
      intro ms k v h
      simp only [List.foldl_cons] at h
      have hstep := ih _ k v h
      have hmem_step : ∀ hm : (k, v) ∈
          (if q.2.insertChannel ≠ channel then ms
           else if acontains ms q.2.id then ms
           else aupsert ms q.2.id { q.2 with state := SegmentState.dropped }),
          (k, v) ∈ ms ∨ (k = (q.2 : SegmentInfo).id ∧
            v = { q.2 with state := SegmentState.dropped } ∧
            (q.2 : SegmentInfo).insertChannel = channel) := by
        intro hm
        by_cases hc : q.2.insertChannel ≠ channel
        · rw [if_pos hc] at hm
          exact Or.inl hm
        · rw [if_neg hc] at hm
          push_neg at hc
          by_cases hcon : acontains ms q.2.id
          · rw [if_pos hcon] at hm
            exact Or.inl hm
          · rw [if_neg hcon] at hm
            rcases aupsert_mem _ _ _ _ _ hm with hx | hx
            · exact Or.inl hx
            · exact Or.inr ⟨hx.1, hx.2, hc⟩
      rcases hstep with hx | hx
      · rcases hmem_step hx with hy | hy
        · exact Or.inl hy
        · exact Or.inr ⟨q, List.mem_cons_self _ _, hy⟩
      · obtain ⟨p, hp, hrest⟩ := hx
        exact Or.inr ⟨p, List.mem_cons_of_mem _ hp, hrest⟩

/-- The channel-drop batch is well formed, covers every tracked segment of the
channel, and only contains Dropped records. -/
theorem dropModSegments_spec (m : Meta) (channel : String) (segs : List SegmentInfo)
    (hwf : SegmentsWF m.segments) :
    ModsWFD (dropModSegments m channel segs) ∧
    (∀ k s, alookup m.segments.segments k = some s → s.insertChannel = channel →
      acontains (dropModSegments m channel segs) k = true) := by
  have hL : ∀ p ∈ m.segments.segments, (p.2 : SegmentInfo).id = p.1 :=
    fun p hp => hwf.2 p hp
  have hphase1 : ModsWFD (segs.foldl
      (fun ms seg2Drop =>
        match m.mergeDropSegment seg2Drop with
        | some s => aupsert ms seg2Drop.id s
        | none => ms)
      []) := by
    have hgen : ∀ (xs : List SegmentInfo) (ms : List (Int × SegmentInfo)), ModsWFD ms →
        ModsWFD (xs.foldl
          (fun ms seg2Drop =>
            match m.mergeDropSegment seg2Drop with
            | some s => aupsert ms seg2Drop.id s
            | none => ms)
          ms) := by
      intro xs
      induction xs with
      | nil => exact fun ms h => h
      | cons x rest ih =>
          intro ms hms
          simp only [List.foldl_cons]
          rcases hx : m.mergeDropSegment x with _ | s
          · exact ih ms hms
          · refine ih (aupsert ms x.id s) ⟨aupsert_keys_nodup _ _ _ hms.1, ?_⟩
            intro p hp
            rcases aupsert_mem _ _ _ _ _ hp with hy | hy
            · exact hms.2 p hy
            · obtain ⟨hk, hv⟩ := hy
              obtain ⟨seg, hgseg, _, hid, hst, _⟩ := mergeDropSegment_props m x s hx
              have hsegid : seg.id = x.id := wf_id m.segments _ _ hwf hgseg
              exact ⟨by rw [hv, hk, hid, hsegid], by rw [hv]; exact hst⟩
    exact hgen segs [] ⟨List.nodup_nil, fun p hp => absurd hp (List.not_mem_nil p)⟩
  have hspec := dropFold_spec channel m.segments.segments hL _ hphase1
  refine ⟨hspec.1, ?_⟩
  intro k s hk hc
  have hmem : (k, s) ∈ m.segments.segments := mem_of_alookup _ _ _ hk
  have := hspec.2.2 (k, s) hmem hc
  exact this

/-- C4: a successful `UpdateDropChannelSegmentInfo` leaves every tracked
segment of the channel Dropped in the in-memory index; the channel-removal
marker is written only after the dropped-segment batch has been persisted, so
whenever this call made the marker visible, the persisted store also holds
every tracked channel segment in the Dropped state; and a subsequent call on
the same channel is a safe no-op (same index, same store, no error). -/
theorem C4_updateDropChannel (m : Meta) (channel : String) (segs : List SegmentInfo)
    (hwf : SegmentsWF m.segments) :
    ((m.updateDropChannelSegmentInfo channel segs).2 = none →
      ∀ k s, alookup m.segments.segments k = some s → s.insertChannel = channel →
        ∃ s', (m.updateDropChannelSegmentInfo channel segs).1.segments.getSegment k
            = some s' ∧ s'.state = SegmentState.dropped) ∧
    (channel ∈ (m.updateDropChannelSegmentInfo channel segs).1.kv.removedChannels →
      channel ∉ m.kv.removedChannels →
      ∀ k s, alookup m.segments.segments k = some s → s.insertChannel = channel →
        ∃ s', alookup (m.updateDropChannelSegmentInfo channel segs).1.kv.segs k = some s' ∧
          s'.state = SegmentState.dropped) ∧
    ((m.updateDropChannelSegmentInfo channel segs).2 = none →
      2 ≤ (m.updateDropChannelSegmentInfo channel segs).1.fuel →
      (((m.updateDropChannelSegmentInfo channel segs).1.updateDropChannelSegmentInfo
          channel []).2 = none ∧
       ((m.updateDropChannelSegmentInfo channel segs).1.updateDropChannelSegmentInfo
          channel []).1.segments
         = (m.updateDropChannelSegmentInfo channel segs).1.segments ∧
       ((m.updateDropChannelSegmentInfo channel segs).1.updateDropChannelSegmentInfo
          channel []).1.kv
         = (m.updateDropChannelSegmentInfo channel segs).1.kv)) := by
  obtain ⟨⟨hndM, hidM⟩, hcover⟩ := dropModSegments_spec m channel segs hwf
  have hvals : ∀ p ∈ dropModSegments m channel segs,
      (p.2 : SegmentInfo).id = p.1 ∧ (p.2 : SegmentInfo).state = SegmentState.dropped :=
    hidM
  -- analysis by fuel
  rcases hf : m.fuel with _ | n
  · -- first persist fails
    have heq : m.updateDropChannelSegmentInfo channel segs = (m, some MErr.persistFailure) := by
      unfold Meta.updateDropChannelSegmentInfo
      exact batchSaveDrop_fail0 m channel _ hf
    rw [heq]
    refine ⟨fun h => Option.noConfusion h, ?_, fun h => Option.noConfusion h⟩
    intro hin hout
    exact absurd hin hout
  · rcases n with _ | n2
    · -- marker persist fails
      have heq : m.updateDropChannelSegmentInfo channel segs
          = ({ m with
                kv := saveSegments m.kv ((dropModSegments m channel segs).map Prod.snd),
                fuel := 0 }, some MErr.persistFailure) := by
        unfold Meta.updateDropChannelSegmentInfo
        exact batchSaveDrop_fail1 m channel _ hf
      rw [heq]
      refine ⟨fun h => Option.noConfusion h, ?_, fun h => Option.noConfusion h⟩
      intro hin hout
      rw [show (saveSegments m.kv ((dropModSegments m channel segs).map
        Prod.snd)).removedChannels = m.kv.removedChannels from rfl] at hin
      exact absurd hin hout
    · -- both persists succeed
      have heq : m.updateDropChannelSegmentInfo channel segs
          = ({ segments := (dropModSegments m channel segs).foldl
                 (fun si p => si.setSegment p.1 p.2) m.segments,
               kv := markChannelDeleted
                 (saveSegments m.kv ((dropModSegments m channel segs).map Prod.snd)) channel,
               fuel := n2 }, none) := by
        unfold Meta.updateDropChannelSegmentInfo
        exact batchSaveDrop_ok m channel _ n2 hf
      rw [heq]
      have hlook := setSegment_fold_lookup (dropModSegments m channel segs) m.segments hndM
      have hmemlem : ∀ k s, alookup m.segments.segments k = some s →
          s.insertChannel = channel →
          ∃ v, alookup (dropModSegments m channel segs) k = some v ∧
            v.state = SegmentState.dropped ∧ v.id = k := by
        intro k s hk hc
        have hcont := hcover k s hk hc
        unfold acontains at hcont
        rcases hv : alookup (dropModSegments m channel segs) k with _ | v
        · rw [hv] at hcont
          exact Bool.noConfusion hcont
        · have hm := mem_of_alookup _ _ _ hv
          exact ⟨v, rfl, (hvals _ hm).2, (hvals _ hm).1⟩
      refine ⟨?_, ?_, ?_⟩
      · -- (a) in-memory drops
        intro _ k s hk hc
        obtain ⟨v, hv, hst, _⟩ := hmemlem k s hk hc
        exact ⟨v, hlook.1 k v hv, hst⟩
      · -- (b) marker only after batch
        intro _ _ k s hk hc
        obtain ⟨v, hv, hst, hid⟩ := hmemlem k s hk hc
        have hndX : (((dropModSegments m channel segs).map Prod.snd).map
            SegmentInfo.id).Nodup := by
          have hmapeq : ((dropModSegments m channel segs).map Prod.snd).map SegmentInfo.id
              = (dropModSegments m channel segs).map Prod.fst := by
            rw [List.map_map]
            exact List.map_congr_left (fun p hp => (hvals p hp).1)
          rw [hmapeq]
          exact hndM
        have hsave := saveSegments_fold_lookup
          ((dropModSegments m channel segs).map Prod.snd) m.kv.segs hndX
        have hvmem : v ∈ (dropModSegments m channel segs).map Prod.snd :=
          List.mem_map.mpr ⟨(k, v), mem_of_alookup _ _ _ hv, rfl⟩
        refine ⟨v, ?_, hst⟩
        rw [show (markChannelDeleted (saveSegments m.kv
            ((dropModSegments m channel segs).map Prod.snd)) channel).segs
          = (saveSegments m.kv ((dropModSegments m channel segs).map Prod.snd)).segs
          from markChannelDeleted_segs _ _]
        have := hsave.1 v hvmem
        rw [hid] at this
        exact this
      · -- (c) idempotent second call
        intro _ h2fuel
        have hfuel2 : ∃ n3, n2 = n3 + 2 := by
          rcases n2 with _ | n2a
          · exact absurd h2fuel (by simp)
          · rcases n2a with _ | n2b
            · exact absurd h2fuel (by simp)
            · exact ⟨n2b, rfl⟩
        obtain ⟨n3, hn3⟩ := hfuel2
        set m1 : Meta :=
          { segments := (dropModSegments m channel segs).foldl
              (fun si p => si.setSegment p.1 p.2) m.segments,
            kv := markChannelDeleted
              (saveSegments m.kv ((dropModSegments m channel segs).map Prod.snd)) channel,
            fuel := n2 } with hm1
        have hnd1 : ((m1.segments.segments.map Prod.fst)).Nodup :=
          setSegment_fold_keys_nodup _ m.segments hwf.1
        have hid1 : ∀ p ∈ m1.segments.segments, (p.2 : SegmentInfo).id = p.1 := by
          intro p hp
          obtain ⟨k, v⟩ := p
          rcases setSegment_fold_mem _ m.segments k v hp with hx | hx
          · exact hwf.2 (k, v) hx
          · exact (hvals _ hx).1
        have hdropped1 : ∀ k v, alookup m1.segments.segments k = some v →
            v.insertChannel = channel → v.state = SegmentState.dropped := by
          intro k v hkv hvc
          have hmem1 : (k, v) ∈ m1.segments.segments := mem_of_alookup _ _ _ hkv
          rcases setSegment_fold_mem _ m.segments k v hmem1 with hx | hx
          · have hkm : alookup m.segments.segments k = some v :=
              alookup_of_mem _ _ _ hwf.1 hx
            obtain ⟨v₀, hv₀, hst, _⟩ := hmemlem k v hkm hvc
            have hl1 := hlook.1 k v₀ hv₀
            have : some v = some v₀ := by
              rw [← hkv]
              exact hl1
            rw [Option.some.injEq] at this
            rw [this]
            exact hst
          · exact (hvals _ hx).2
        have hkvlook : ∀ k v, alookup m1.segments.segments k = some v →
            v.insertChannel = channel → alookup m1.kv.segs k = some v := by
          intro k v hkv hvc
          have hndX : (((dropModSegments m channel segs).map Prod.snd).map
              SegmentInfo.id).Nodup := by
            have hmapeq : ((dropModSegments m channel segs).map Prod.snd).map SegmentInfo.id
                = (dropModSegments m channel segs).map Prod.fst := by
              rw [List.map_map]
              exact List.map_congr_left (fun p hp => (hvals p hp).1)
            rw [hmapeq]
            exact hndM
          have hsave := saveSegments_fold_lookup
            ((dropModSegments m channel segs).map Prod.snd) m.kv.segs hndX
          have hsegs1 : m1.kv.segs
              = (saveSegments m.kv ((dropModSegments m channel segs).map Prod.snd)).segs :=
            markChannelDeleted_segs _ _
          have hmem1 : (k, v) ∈ m1.segments.segments := mem_of_alookup _ _ _ hkv
          rcases setSegment_fold_mem _ m.segments k v hmem1 with hx | hx
          · have hkm : alookup m.segments.segments k = some v :=
              alookup_of_mem _ _ _ hwf.1 hx
            obtain ⟨v₀, hv₀, _, hid₀⟩ := hmemlem k v hkm hvc
            have hl1 := hlook.1 k v₀ hv₀
            have hveq : v = v₀ := by
              have : some v = some v₀ := by
                rw [← hkv]
                exact hl1
              rw [Option.some.injEq] at this
              exact this
            rw [hsegs1, hveq]
            have hvmem : v₀ ∈ (dropModSegments m channel segs).map Prod.snd :=
              List.mem_map.mpr ⟨(k, v₀), mem_of_alookup _ _ _ hv₀, rfl⟩
            have := hsave.1 v₀ hvmem
            rw [hid₀] at this
            exact this
          · rw [hsegs1]
            have hvmem : v ∈ (dropModSegments m channel segs).map Prod.snd :=
              List.mem_map.mpr ⟨(k, v), hx, rfl⟩
            have := hsave.1 v hvmem
            rw [(hvals _ hx).1] at this
            exact this
        -- every entry of the second call's batch is already stored, in memory and kv
        have hmods2 : ∀ q ∈ dropModSegments m1 channel ([] : List SegmentInfo),
            m1.segments.getSegment q.1 = some q.2 ∧
            alookup m1.kv.segs q.1 = some q.2 ∧
            (q.2 : SegmentInfo).id = q.1 := by
          intro q hq
          obtain ⟨k, v⟩ := q
          have horigin := dropFold_mem channel m1.segments.segments [] k v hq
          rcases horigin with hx | hx
          · exact absurd hx (List.not_mem_nil _)
          · obtain ⟨p, hp, hk, hv, hpc⟩ := hx
            have hkp : k = p.1 := by
              rw [hk]
              exact hid1 p hp
            have hlookp : alookup m1.segments.segments p.1 = some p.2 := by
              refine alookup_of_mem _ _ _ hnd1 ?_
              obtain ⟨p1, p2⟩ := p
              exact hp
            have hpdrop : (p.2 : SegmentInfo).state = SegmentState.dropped :=
              hdropped1 p.1 p.2 hlookp hpc
            have hveq : v = p.2 := by
              rw [hv]
              exact dropState_eta _ hpdrop
            subst hkp
            rw [hveq]
            exact ⟨hlookp, hkvlook p.1 p.2 hlookp hpc, hid1 p hp⟩
        have hfuelm1 : m1.fuel = n3 + 2 := hn3
        have heq2 : m1.updateDropChannelSegmentInfo channel []
            = ({ segments := (dropModSegments m1 channel []).foldl
                   (fun si p => si.setSegment p.1 p.2) m1.segments,
                 kv := markChannelDeleted
                   (saveSegments m1.kv ((dropModSegments m1 channel []).map Prod.snd))
                   channel,
                 fuel := n3 }, none) := by
          unfold Meta.updateDropChannelSegmentInfo
          exact batchSaveDrop_ok m1 channel _ n3 hfuelm1
        have hfoldid : (dropModSegments m1 channel []).foldl
            (fun si p => si.setSegment p.1 p.2) m1.segments = m1.segments :=
          setSegment_fold_id _ m1.segments (fun q hq => (hmods2 q hq).1)
        have hsaveid : saveSegments m1.kv ((dropModSegments m1 channel []).map Prod.snd)
            = m1.kv := by
          refine saveSegments_id m1.kv _ ?_
          intro v hv
          obtain ⟨q, hq, hqv⟩ := List.mem_map.mp hv
          obtain ⟨_, h2, h3⟩ := hmods2 q hq
          rw [← hqv, h3]
          exact h2
        have hmarkid : markChannelDeleted m1.kv channel = m1.kv := by
          refine markChannelDeleted_id m1.kv channel ?_
          exact markChannelDeleted_mem _ _
        rw [heq2, hfoldid, hsaveid, hmarkid]
        exact ⟨rfl, rfl, rfl⟩



theorem acontains_iff_mem_keys {κ α : Type} [DecidableEq κ] (l : List (κ × α)) (p : κ) :
    acontains l p = true ↔ p ∈ l.map Prod.fst := by
  induction l with
  | nil => simp [acontains, alookup]
  | cons q rest ih =>
      obtain ⟨k, v⟩ := q
      by_cases h : k = p
      · subst h
        simp [acontains, alookup]
      · have h1 : acontains ((k, v) :: rest) p = acontains rest p := by
          simp [acontains, alookup, h]
        have h2 : ¬ p = k := fun hh => h hh.symm
        rw [h1, ih]
        simp [List.map_cons, List.mem_cons, h2]

theorem acontains_aupsert_iff {κ α : Type} [DecidableEq κ]
    (l : List (κ × α)) (k : κ) (v : α) (p : κ) :
    acontains (aupsert l k v) p = true ↔ (p = k ∨ acontains l p = true) := by
  constructor
  · intro h
    rcases aupsert_keys_mem l k v p ((acontains_iff_mem_keys _ _).mp h) with hx | hx
    · exact Or.inl hx
    · exact Or.inr ((acontains_iff_mem_keys _ _).mpr hx)
  · intro h
    rcases h with h | h
    · subst h
      exact acontains_aupsert_self _ _ _
    · exact acontains_aupsert_mono _ _ _ _ h

theorem aremove_subset {κ α : Type} [DecidableEq κ] (l : List (κ × α)) (k : κ) :
    ∀ q ∈ aremove l k, q ∈ l := by
  induction l with
  | nil => intro q hq; exact absurd hq (List.not_mem_nil q)
  | cons p rest ih =>
      obtain ⟨k₀, w⟩ := p
      intro q hq
      by_cases h₀ : k₀ = k
      · rw [show aremove ((k₀, w) :: rest) k
            = if k₀ = k then rest else (k₀, w) :: aremove rest k from rfl, if_pos h₀] at hq
        exact List.mem_cons_of_mem _ hq
      · rw [show aremove ((k₀, w) :: rest) k
            = if k₀ = k then rest else (k₀, w) :: aremove rest k from rfl, if_neg h₀] at hq
        rcases List.mem_cons.mp hq with hx | hx
        · rw [hx]
          exact List.mem_cons_self _ _
        · exact List.mem_cons_of_mem _ (ih q hx)

theorem acontains_aremove_iff {κ α : Type} [DecidableEq κ]
    (l : List (κ × α)) (k p : κ) (hnd : (l.map Prod.fst).Nodup) :
    acontains (aremove l k) p = true ↔ (acontains l p = true ∧ p ≠ k) := by
  by_cases hpk : p = k
  · subst hpk
    unfold acontains
    rw [alookup_aremove_self l p hnd]
    simp
  · unfold acontains
    rw [alookup_aremove_ne l k p (fun h => hpk h.symm)]
    simp [hpk]

theorem logbuild_spec (ds : List Binlog) :
    ∀ l : List (String × Binlog),
    ((∀ q ∈ l, (q.2 : Binlog).logPath = q.1) →
      ∀ q ∈ ds.foldl (fun l d => aupsert l d.logPath d) l, (q.2 : Binlog).logPath = q.1) ∧
    ((l.map Prod.fst).Nodup →
      ((ds.foldl (fun l d => aupsert l d.logPath d) l).map Prod.fst).Nodup) ∧
    (∀ p : String, acontains (ds.foldl (fun l d => aupsert l d.logPath d) l) p = true ↔
      (acontains l p = true ∨ p ∈ ds.map Binlog.logPath)) := by
  induction ds with
  | nil =>
      intro l
      exact ⟨fun h => h, fun h => h, fun p => by simp⟩
  | cons d rest ih =>
      intro l
      obtain ⟨ih1, ih2, ih3⟩ := ih (aupsert l d.logPath d)
      simp only [List.foldl_cons]
      refine ⟨?_, ?_, ?_⟩
      · intro hinv
        refine ih1 ?_
        intro q hq
        rcases aupsert_mem _ _ _ _ _ hq with hx | hx
        · exact hinv q hx
        · obtain ⟨hk, hv⟩ := hx
          rw [hv, hk]
      · intro hnd
        exact ih2 (aupsert_keys_nodup _ _ _ hnd)
      · intro p
        rw [ih3 p, acontains_aupsert_iff]
        simp only [List.map_cons, List.mem_cons]
        tauto

theorem aremoveFold_spec (rbs : List Binlog) :
    ∀ l : List (String × Binlog), (l.map Prod.fst).Nodup →
    (∀ q ∈ rbs.foldl (fun l2 rb => aremove l2 rb.logPath) l, q ∈ l) ∧
    ((rbs.foldl (fun l2 rb => aremove l2 rb.logPath) l).map Prod.fst).Nodup ∧
    (∀ p : String, acontains (rbs.foldl (fun l2 rb => aremove l2 rb.logPath) l) p = true ↔
      (acontains l p = true ∧ p ∉ rbs.map Binlog.logPath)) := by
  induction rbs with
  | nil =>
      intro l hnd
      exact ⟨fun q hq => hq, hnd, fun p => by simp⟩
  | cons rb rest ih =>
      intro l hnd
      obtain ⟨ih1, ih2, ih3⟩ := ih (aremove l rb.logPath) (aremove_keys_nodup _ _ hnd)
      simp only [List.foldl_cons]
      refine ⟨?_, ih2, ?_⟩
      · intro q hq
        exact aremove_subset _ _ q (ih1 q hq)
      · intro p
        rw [ih3 p, acontains_aremove_iff _ _ _ hnd]
        simp only [List.map_cons, List.mem_cons, not_or]
        tauto

theorem removeFold_spec (removes : List FieldBinlog) (fid : Int) :
    ∀ l : List (String × Binlog), (l.map Prod.fst).Nodup →
    (∀ q ∈ removes.foldl
        (fun l2 remove => if remove.fieldID = fid then
            remove.binlogs.foldl (fun l3 rb => aremove l3 rb.logPath) l2
          else l2) l, q ∈ l) ∧
    ((removes.foldl
        (fun l2 remove => if remove.fieldID = fid then
            remove.binlogs.foldl (fun l3 rb => aremove l3 rb.logPath) l2
          else l2) l).map Prod.fst).Nodup ∧
    (∀ p : String, acontains (removes.foldl
        (fun l2 remove => if remove.fieldID = fid then
            remove.binlogs.foldl (fun l3 rb => aremove l3 rb.logPath) l2
          else l2) l) p = true ↔
      (acontains l p = true ∧ p ∉ fieldPaths fid removes)) := by
  induction removes with
  | nil =>
      intro l hnd
      exact ⟨fun q hq => hq, hnd, fun p => by simp [fieldPaths]⟩
  | cons remove rest ih =>
      intro l hnd
      by_cases hf : remove.fieldID = fid
      · obtain ⟨h1, h2, h3⟩ := aremoveFold_spec remove.binlogs l hnd
        obtain ⟨ih1, ih2, ih3⟩ := ih _ h2
        simp only [List.foldl_cons, if_pos hf]
        refine ⟨fun q hq => h1 q (ih1 q hq), ih2, ?_⟩
        intro p
        rw [ih3 p, h3 p]
        have hfp : fieldPaths fid (remove :: rest)
            = remove.binlogs.map Binlog.logPath ++ fieldPaths fid rest := by
          simp [fieldPaths, hf]
        rw [hfp]
        simp only [List.mem_append, not_or]
        tauto
      · obtain ⟨ih1, ih2, ih3⟩ := ih l hnd
        simp only [List.foldl_cons, if_neg hf]
        refine ⟨ih1, ih2, ?_⟩
        intro p
        rw [ih3 p]
        have hfp : fieldPaths fid (remove :: rest) = fieldPaths fid rest := by
          simp [fieldPaths, hf]
        rw [hfp]



theorem updateDeltalogs_mem (removes adds : List FieldBinlog) (f : Int) (p : String) :
    ∀ origin : List FieldBinlog,
    (p ∈ fieldPaths f (updateDeltalogs origin removes adds) ↔
      (p ∈ fieldPaths f origin ∧ p ∉ fieldPaths f removes)) := by
  intro origin
  induction origin with
  | nil => simp [updateDeltalogs, fieldPaths]
  | cons fbl rest ih =>
      obtain ⟨hinvB', hndB', hkeysB⟩ := logbuild_spec fbl.binlogs []
      have hinvB : ∀ q ∈ fbl.binlogs.foldl (fun l d => aupsert l d.logPath d)
          ([] : List (String × Binlog)), (q.2 : Binlog).logPath = q.1 :=
        hinvB' (fun q hq => absurd hq (List.not_mem_nil q))
      have hndB : ((fbl.binlogs.foldl (fun l d => aupsert l d.logPath d)
          ([] : List (String × Binlog))).map Prod.fst).Nodup := hndB' List.nodup_nil
      obtain ⟨hsub, hndS, hkeysS⟩ := removeFold_spec removes fbl.fieldID _ hndB
      have hinvS : ∀ q ∈ removes.foldl
          (fun l2 remove => if remove.fieldID = fbl.fieldID then
              remove.binlogs.foldl (fun l3 rb => aremove l3 rb.logPath) l2
            else l2)
          (fbl.binlogs.foldl (fun l d => aupsert l d.logPath d) []),
          (q.2 : Binlog).logPath = q.1 :=
        fun q hq => hinvB q (hsub q hq)
      have hunfold : updateDeltalogs (fbl :: rest) removes adds
          = (if 0 < ((removes.foldl
                (fun l remove => if remove.fieldID = fbl.fieldID then
                    remove.binlogs.foldl (fun l2 rb => aremove l2 rb.logPath) l
                  else l)
                (fbl.binlogs.foldl (fun l d => aupsert l d.logPath d) [])).map
                Prod.snd).length then
              [{ fieldID := fbl.fieldID,
                 binlogs := (removes.foldl
                   (fun l remove => if remove.fieldID = fbl.fieldID then
                       remove.binlogs.foldl (fun l2 rb => aremove l2 rb.logPath) l
                     else l)
                   (fbl.binlogs.foldl (fun l d => aupsert l d.logPath d) [])).map
                   Prod.snd }]
            else []) ++ updateDeltalogs rest removes adds := rfl
      rw [hunfold, fieldPaths_append, List.mem_append, ih]
      set S := removes.foldl
          (fun l remove => if remove.fieldID = fbl.fieldID then
              remove.binlogs.foldl (fun l2 rb => aremove l2 rb.logPath) l
            else l)
          (fbl.binlogs.foldl (fun l d => aupsert l d.logPath d) []) with hS
      have hmapS : (S.map Prod.snd).map Binlog.logPath = S.map Prod.fst := by
        rw [List.map_map]
        exact List.map_congr_left (fun q hq => hinvS q hq)
      have hhead : p ∈ fieldPaths f
          (if 0 < (S.map Prod.snd).length then
            [{ fieldID := fbl.fieldID, binlogs := S.map Prod.snd }]
          else ([] : List FieldBinlog)) ↔
          (fbl.fieldID = f ∧ p ∈ (S.map Prod.snd).map Binlog.logPath) := by
        by_cases hlen : 0 < (S.map Prod.snd).length
        · rw [if_pos hlen]
          by_cases hf : fbl.fieldID = f
          · simp [fieldPaths, hf]
          · simp [fieldPaths, hf]
        · rw [if_neg hlen]
          have hnil : S.map Prod.snd = [] := by
            cases hx : S.map Prod.snd with
            | nil => rfl
            | cons a as => rw [hx] at hlen; exact absurd (by simp) hlen
          simp [fieldPaths, hnil]
      rw [hhead]
      have hSmem : p ∈ (S.map Prod.snd).map Binlog.logPath ↔
          (p ∈ fbl.binlogs.map Binlog.logPath ∧ p ∉ fieldPaths fbl.fieldID removes) := by
        rw [hmapS, ← acontains_iff_mem_keys, hkeysS p, hkeysB p]
        simp [acontains, alookup]
      rw [hSmem]
      by_cases hf : fbl.fieldID = f
      · subst hf
        have hfp : fieldPaths fbl.fieldID (fbl :: rest)
            = fbl.binlogs.map Binlog.logPath ++ fieldPaths fbl.fieldID rest := by
          simp [fieldPaths]
        rw [hfp]
        simp only [List.mem_append, eq_self_iff_true, true_and]
        tauto
      · have hfp : fieldPaths f (fbl :: rest) = fieldPaths f rest := by
          simp [fieldPaths, hf]
        rw [hfp]
        simp only [hf, false_and, false_or]

theorem segDeltalogsFold_mem (f : Int) (p : String) (xs : List SegmentInfo) :
    ∀ acc : List FieldBinlog,
    (p ∈ fieldPaths f (xs.foldl (fun acc s => acc ++ s.deltalogs) acc) ↔
      (p ∈ fieldPaths f acc ∨ ∃ s ∈ xs, p ∈ fieldPaths f s.deltalogs)) := by
  induction xs with
  | nil =>
      intro acc
      simp
  | cons s rest ih =>
      intro acc
      simp only [List.foldl_cons]
      rw [ih (acc ++ s.deltalogs), fieldPaths_append, List.mem_append]
      constructor
      · rintro ((h | h) | ⟨t, ht, hp⟩)
        · exact Or.inl h
        · exact Or.inr ⟨s, List.mem_cons_self _ _, h⟩
        · exact Or.inr ⟨t, List.mem_cons_of_mem _ ht, hp⟩
      · rintro (h | ⟨t, ht, hp⟩)
        · exact Or.inl (Or.inl h)
        · rcases List.mem_cons.mp ht with rfl | ht'
          · exact Or.inl (Or.inr hp)
          · exact Or.inr ⟨t, ht', hp⟩

theorem clDeltalogsFold_mem (f : Int) (p : String) (xs : List CompactionSegmentBinlogs) :
    ∀ acc : List FieldBinlog,
    (p ∈ fieldPaths f (xs.foldl (fun acc cl => acc ++ cl.deltalogs) acc) ↔
      (p ∈ fieldPaths f acc ∨ ∃ cl ∈ xs, p ∈ fieldPaths f cl.deltalogs)) := by
  induction xs with
  | nil =>
      intro acc
      simp
  | cons c rest ih =>
      intro acc
      simp only [List.foldl_cons]
      rw [ih (acc ++ c.deltalogs), fieldPaths_append, List.mem_append]
      constructor
      · rintro ((h | h) | ⟨t, ht, hp⟩)
        · exact Or.inl h
        · exact Or.inr ⟨c, List.mem_cons_self _ _, h⟩
        · exact Or.inr ⟨t, List.mem_cons_of_mem _ ht, hp⟩
      · rintro (h | ⟨t, ht, hp⟩)
        · exact Or.inl (Or.inl h)
        · rcases List.mem_cons.mp ht with rfl | ht'
          · exact Or.inl (Or.inr hp)
          · exact Or.inr ⟨t, ht', hp⟩

theorem compactionMods_eq (m : Meta) (now : Nat) (cls : List CompactionSegmentBinlogs) :
    ∀ acc acc' : List SegmentInfo,
    acc' = acc.map (fun s => { s with state := SegmentState.dropped, droppedAt := now }) →
    cls.foldl
      (fun acc cl =>
        match m.segments.getSegment cl.segmentID with
        | some segment =>
            acc ++ [{ segment with state := SegmentState.dropped, droppedAt := now }]
        | none => acc) acc'
    = (cls.foldl
        (fun acc cl =>
          match m.segments.getSegment cl.segmentID with
          | some segment => acc ++ [segment]
          | none => acc) acc).map
        (fun s => { s with state := SegmentState.dropped, droppedAt := now }) := by
  induction cls with
  | nil =>
      intro acc acc' h
      exact h
  | cons cl rest ih =>
      intro acc acc' h
      simp only [List.foldl_cons]
      rcases hg : m.segments.getSegment cl.segmentID with _ | seg
      · exact ih acc acc' h
      · have harg : acc' ++ [{ seg with state := SegmentState.dropped, droppedAt := now }]
            = (acc ++ [seg]).map
              (fun s => { s with state := SegmentState.dropped, droppedAt := now }) := by
          rw [h, List.map_append]
          rfl
        exact ih (acc ++ [seg]) _ harg

theorem compactionOlds_mem (m : Meta) (cls : List CompactionSegmentBinlogs) :
    ∀ acc : List SegmentInfo, ∀ s ∈ cls.foldl
      (fun acc cl =>
        match m.segments.getSegment cl.segmentID with
        | some segment => acc ++ [segment]
        | none => acc) acc,
      s ∈ acc ∨ ∃ k, m.segments.getSegment k = some s := by
  induction cls with
  | nil =>
      intro acc s hs
      exact Or.inl hs
  | cons cl rest ih =>
      intro acc s hs
      simp only [List.foldl_cons] at hs
      rcases hg : m.segments.getSegment cl.segmentID with _ | seg
      · rw [hg] at hs
        exact ih acc s hs
      · rw [hg] at hs
        have hs' : s ∈ rest.foldl
            (fun acc cl =>
              match m.segments.getSegment cl.segmentID with
              | some segment => acc ++ [segment]
              | none => acc) (acc ++ [seg]) := hs
        rcases ih (acc ++ [seg]) s hs' with hin | hex
        · rcases List.mem_append.mp hin with hx | hx
          · exact Or.inl hx
          · rw [List.mem_singleton] at hx
            exact Or.inr ⟨cl.segmentID, by rw [hx]; exact hg⟩
        · exact Or.inr hex

theorem pickEarliest_spec (cur p : Option MsgPosition) (hp : p.isSome = true) :
    (pickEarliest cur p = cur ∨ pickEarliest cur p = p) ∧
    (pickEarliest cur p).isSome = true ∧
    optTimestamp (pickEarliest cur p) ≤ optTimestamp p ∧
    (cur.isSome = true → optTimestamp (pickEarliest cur p) ≤ optTimestamp cur) := by
  unfold pickEarliest
  by_cases hc : (cur.isNone || (p.isSome && decide (optTimestamp p < optTimestamp cur))) = true
  · rw [if_pos hc]
    refine ⟨Or.inr rfl, hp, le_refl _, ?_⟩
    intro hcs
    simp only [Bool.or_eq_true, Bool.and_eq_true, decide_eq_true_eq] at hc
    rcases hc with hc | hc
    · rw [Option.isNone_iff_eq_none] at hc
      rw [hc] at hcs
      exact absurd hcs (by simp)
    · exact le_of_lt hc.2
  · rw [if_neg hc]
    simp only [Bool.or_eq_true, Bool.and_eq_true, decide_eq_true_eq, not_or] at hc
    have hcs : cur.isSome = true := by
      cases hcur : cur with
      | none => rw [hcur] at hc; exact absurd rfl hc.1
      | some c => rfl
    have hle : optTimestamp cur ≤ optTimestamp p := by
      by_contra hlt
      push_neg at hlt
      exact hc.2 ⟨hp, hlt⟩
    exact ⟨Or.inl rfl, hcs, hle, fun _ => le_refl _⟩

theorem pickFold_min (g : SegmentInfo → Option MsgPosition) (ss : List SegmentInfo) :
    ∀ cur : Option MsgPosition,
    (∀ s ∈ ss, (g s).isSome = true) →
    ((ss.foldl (fun c s => pickEarliest c (g s)) cur = cur ∨
       ss.foldl (fun c s => pickEarliest c (g s)) cur ∈ ss.map g) ∧
     (cur.isSome = true →
       (ss.foldl (fun c s => pickEarliest c (g s)) cur).isSome = true ∧
       optTimestamp (ss.foldl (fun c s => pickEarliest c (g s)) cur) ≤ optTimestamp cur) ∧
     (∀ s ∈ ss, optTimestamp (ss.foldl (fun c s => pickEarliest c (g s)) cur)
        ≤ optTimestamp (g s))) := by
  induction ss with
  | nil =>
      intro cur _
      exact ⟨Or.inl rfl, fun hc => ⟨hc, le_refl _⟩, fun s hs => absurd hs (List.not_mem_nil s)⟩
  | cons s rest ih =>
      intro cur hall
      have hps : (g s).isSome = true := hall s (List.mem_cons_self _ _)
      have hspec := pickEarliest_spec cur (g s) hps
      have hrest : ∀ t ∈ rest, (g t).isSome = true :=
        fun t ht => hall t (List.mem_cons_of_mem _ ht)
      obtain ⟨iha, ihb, ihc⟩ := ih (pickEarliest cur (g s)) hrest
      simp only [List.foldl_cons]
      refine ⟨?_, ?_, ?_⟩
      · rcases iha with hx | hx
        · rw [hx]
          rcases hspec.1 with hy | hy
          · exact Or.inl hy
          · rw [hy]
            exact Or.inr (List.mem_map_of_mem g (List.mem_cons_self s rest))
        · rw [List.map_cons]
          exact Or.inr (List.mem_cons_of_mem _ hx)
      · intro hcs
        obtain ⟨hfs, hfle⟩ := ihb hspec.2.1
        exact ⟨hfs, le_trans hfle (hspec.2.2.2 hcs)⟩
      · intro t ht
        rcases List.mem_cons.mp ht with rfl | hx
        · exact le_trans (ihb hspec.2.1).2 hspec.2.2.1
        · exact ihc t hx

theorem getCompleteCompaction_none (m : Meta) (cls : List CompactionSegmentBinlogs)
    (result : CompactionResult) (now : Nat)
    (h : cls.foldl
      (fun acc cl =>
        match m.segments.getSegment cl.segmentID with
        | some segment =>
            acc ++ [{ segment with state := SegmentState.dropped, droppedAt := now }]
        | none => acc) [] = []) :
    m.getCompleteCompactionMeta cls result now = (m, none) := by
  unfold Meta.getCompleteCompactionMeta
  rw [h]

theorem getCompleteCompaction_some (m : Meta) (cls : List CompactionSegmentBinlogs)
    (result : CompactionResult) (now : Nat) (first : SegmentInfo) (restm : List SegmentInfo)
    (h : cls.foldl
      (fun acc cl =>
        match m.segments.getSegment cl.segmentID with
        | some segment =>
            acc ++ [{ segment with state := SegmentState.dropped, droppedAt := now }]
        | none => acc) [] = first :: restm) :
    m.getCompleteCompactionMeta cls result now
      = (m, some
          (cls.foldl
            (fun acc cl =>
              match m.segments.getSegment cl.segmentID with
              | some segment => acc ++ [segment]
              | none => acc) [],
           first :: restm,
           { id := result.segmentID
             collectionID := first.collectionID
             partitionID := first.partitionID
             insertChannel := first.insertChannel
             numOfRows := result.numOfRows
             state := SegmentState.flushing
             maxRowNum := first.maxRowNum
             droppedAt := 0
             startPosition := (first :: restm).foldl
               (fun cur s => pickEarliest cur s.startPosition) none
             dmlPosition := (first :: restm).foldl
               (fun cur s => pickEarliest cur s.dmlPosition) none
             binlogs := result.insertLogs
             statslogs := result.field2StatslogPaths
             deltalogs := result.deltalogs ++ updateDeltalogs
               ((first :: restm).foldl (fun acc s => acc ++ s.deltalogs) [])
               (cls.foldl (fun acc cl => acc ++ cl.deltalogs) []) []
             createdByCompaction := true
             compactionFrom := (first :: restm).map (fun s => s.id)
             isImporting := false
             currRows := 0 })) := by
  unfold Meta.getCompleteCompactionMeta
  rw [h]



theorem pickFold_earliest (g : SegmentInfo → Option MsgPosition)
    (first : SegmentInfo) (restm : List SegmentInfo)
    (hall : ∀ t ∈ first :: restm, (g t).isSome = true) :
    (first :: restm).foldl (fun c s => pickEarliest c (g s)) none
        ∈ (first :: restm).map g ∧
    ∀ t ∈ first :: restm, optTimestamp ((first :: restm).foldl
        (fun c s => pickEarliest c (g s)) none) ≤ optTimestamp (g t) := by
  have h0 : (first :: restm).foldl (fun c s => pickEarliest c (g s)) none
      = restm.foldl (fun c s => pickEarliest c (g s)) (g first) := by
    rw [List.foldl_cons]
    rw [show pickEarliest none (g first) = g first from by
      unfold pickEarliest
      rw [if_pos (by simp)]]
  obtain ⟨pa, pb, pc⟩ := pickFold_min g restm (g first)
    (fun t ht => hall t (List.mem_cons_of_mem _ ht))
  have hfs : (g first).isSome = true := hall first (List.mem_cons_self _ _)
  constructor
  · rw [h0]
    rcases pa with hx | hx
    · rw [hx, List.map_cons]
      exact List.mem_cons_self _ _
    · rw [List.map_cons]
      exact List.mem_cons_of_mem _ hx
  · intro t ht
    rw [h0]
    rcases List.mem_cons.mp ht with rfl | hx
    · exact (pb hfs).2
    · exact pc t hx

/-- C6: `GetCompleteCompactionMeta` mutates no catalog state; on success the
modified sources are the found sources cloned and marked Dropped with the drop
timestamp, each found source snapshot is exactly the stored record, and the
new segment is in the Flushing state, carries `compactionFrom` equal to the
found source ids, has deltalogs holding exactly the result's output deltalog
paths plus those source deltalog paths not listed among the deltalogs handed
to the compaction, and — when every source has a position — start and dml
positions realising the earliest timestamp across the sources. -/
theorem C6_getCompleteCompactionMeta (m : Meta) (cls : List CompactionSegmentBinlogs)
    (result : CompactionResult) (now : Nat) (hwf : SegmentsWF m.segments) :
    (m.getCompleteCompactionMeta cls result now).1 = m ∧
    (∀ old mods newSeg,
      (m.getCompleteCompactionMeta cls result now).2 = some (old, mods, newSeg) →
      mods = old.map (fun s => { s with state := SegmentState.dropped, droppedAt := now }) ∧
      (∀ s ∈ old, m.segments.getSegment s.id = some s) ∧
      newSeg.state = SegmentState.flushing ∧
      newSeg.compactionFrom = old.map SegmentInfo.id ∧
      (∀ f p, p ∈ fieldPaths f newSeg.deltalogs ↔
        (p ∈ fieldPaths f result.deltalogs ∨
          ((∃ s ∈ old, p ∈ fieldPaths f s.deltalogs) ∧
            ¬ ∃ cl ∈ cls, p ∈ fieldPaths f cl.deltalogs))) ∧
      ((∀ s ∈ old, (SegmentInfo.dmlPosition s).isSome = true) →
        newSeg.dmlPosition ∈ old.map SegmentInfo.dmlPosition ∧
        ∀ s ∈ old, optTimestamp newSeg.dmlPosition ≤ optTimestamp s.dmlPosition) ∧
      ((∀ s ∈ old, (SegmentInfo.startPosition s).isSome = true) →
        newSeg.startPosition ∈ old.map SegmentInfo.startPosition ∧
        ∀ s ∈ old, optTimestamp newSeg.startPosition ≤ optTimestamp s.startPosition)) := by
  constructor
  · rcases hms : cls.foldl
        (fun acc cl =>
          match m.segments.getSegment cl.segmentID with
          | some segment =>
              acc ++ [{ segment with state := SegmentState.dropped, droppedAt := now }]
          | none => acc) [] with _ | ⟨first, restm⟩
    · rw [getCompleteCompaction_none m cls result now hms]
    · rw [getCompleteCompaction_some m cls result now first restm hms]
  · intro old mods newSeg h
    rcases hms : cls.foldl
        (fun acc cl =>
          match m.segments.getSegment cl.segmentID with
          | some segment =>
              acc ++ [{ segment with state := SegmentState.dropped, droppedAt := now }]
          | none => acc) [] with _ | ⟨first, restm⟩
    · rw [getCompleteCompaction_none m cls result now hms] at h
      exact Option.noConfusion h
    · rw [getCompleteCompaction_some m cls result now first restm hms] at h
      simp only [Option.some.injEq, Prod.mk.injEq] at h
      obtain ⟨hold, hmods, hnew⟩ := h
      subst hold
      subst hmods
      subst hnew
      have h1 : first :: restm
          = (cls.foldl
              (fun acc cl =>
                match m.segments.getSegment cl.segmentID with
                | some segment => acc ++ [segment]
                | none => acc) []).map
              (fun s => { s with state := SegmentState.dropped, droppedAt := now }) := by
        rw [← hms]
        exact compactionMods_eq m now cls [] [] rfl
      refine ⟨h1, ?_, rfl, ?_, ?_, ?_, ?_⟩
      · intro s hs
        rcases compactionOlds_mem m cls [] s hs with hx | hx
        · exact absurd hx (List.not_mem_nil s)
        · obtain ⟨k, hk⟩ := hx
          have hid := wf_id m.segments k s hwf hk
          rw [hid]
          exact hk
      · show (first :: restm).map (fun s => s.id) = _
        rw [h1, List.map_map]
        exact List.map_congr_left (fun s _ => rfl)
      · intro f p
        show p ∈ fieldPaths f (result.deltalogs ++ updateDeltalogs
            ((first :: restm).foldl (fun acc s => acc ++ s.deltalogs) [])
            (cls.foldl (fun acc cl => acc ++ cl.deltalogs) []) []) ↔ _
        rw [fieldPaths_append, List.mem_append, updateDeltalogs_mem,
            segDeltalogsFold_mem, clDeltalogsFold_mem]
        have hexm : (∃ s ∈ (first :: restm : List SegmentInfo), p ∈ fieldPaths f s.deltalogs)
            ↔ ∃ s ∈ (cls.foldl
                (fun acc cl =>
                  match m.segments.getSegment cl.segmentID with
                  | some segment => acc ++ [segment]
                  | none => acc) ([] : List SegmentInfo)),
                p ∈ fieldPaths f s.deltalogs := by
          rw [h1]
          constructor
          · rintro ⟨s, hs, hp⟩
            obtain ⟨t, ht, hts⟩ := List.mem_map.mp hs
            refine ⟨t, ht, ?_⟩
            rw [← hts] at hp
            exact hp
          · rintro ⟨t, ht, hp⟩
            exact ⟨_, List.mem_map_of_mem _ ht, hp⟩
        rw [hexm]
        simp only [fieldPaths, List.not_mem_nil, false_or]
      · intro hall
        have hmem : ∀ t ∈ (first :: restm : List SegmentInfo),
            (SegmentInfo.dmlPosition t).isSome = true := by
          intro t ht
          rw [h1] at ht
          obtain ⟨s, hs, hst⟩ := List.mem_map.mp ht
          rw [← hst]
          exact hall s hs
        obtain ⟨ha, hb⟩ := pickFold_earliest (fun s => s.dmlPosition) first restm hmem
        have hmapeq : (first :: restm).map SegmentInfo.dmlPosition
            = (cls.foldl
                (fun acc cl =>
                  match m.segments.getSegment cl.segmentID with
                  | some segment => acc ++ [segment]
                  | none => acc) ([] : List SegmentInfo)).map SegmentInfo.dmlPosition := by
          rw [h1, List.map_map]
          exact List.map_congr_left (fun s _ => rfl)
        constructor
        · rw [← hmapeq]
          exact ha
        · intro s hs
          have hcl : { s with state := SegmentState.dropped, droppedAt := now }
              ∈ (first :: restm : List SegmentInfo) := by
            rw [h1]
            exact List.mem_map_of_mem _ hs
          exact hb { s with state := SegmentState.dropped, droppedAt := now } hcl
      · intro hall
        have hmem : ∀ t ∈ (first :: restm : List SegmentInfo),
            (SegmentInfo.startPosition t).isSome = true := by
          intro t ht
          rw [h1] at ht
          obtain ⟨s, hs, hst⟩ := List.mem_map.mp ht
          rw [← hst]
          exact hall s hs
        obtain ⟨ha, hb⟩ := pickFold_earliest (fun s => s.startPosition) first restm hmem
        have hmapeq : (first :: restm).map SegmentInfo.startPosition
            = (cls.foldl
                (fun acc cl =>
                  match m.segments.getSegment cl.segmentID with
                  | some segment => acc ++ [segment]
                  | none => acc) ([] : List SegmentInfo)).map SegmentInfo.startPosition := by
          rw [h1, List.map_map]
          exact List.map_congr_left (fun s _ => rfl)
        constructor
        · rw [← hmapeq]
          exact ha
        · intro s hs
          have hcl : { s with state := SegmentState.dropped, droppedAt := now }
              ∈ (first :: restm : List SegmentInfo) := by
            rw [h1]
            exact List.mem_map_of_mem _ hs
          exact hb { s with state := SegmentState.dropped, droppedAt := now } hcl



/-- C6 witness: on a concrete catalog holding two flushed sources with
positions and deltalogs, the compaction meta computation leaves the catalog
untouched and yields the dropped clones, a Flushing merge segment carrying the
source ids, and a dml position realising the earliest timestamp. -/
theorem C6_witness :
    SegmentsWF (wMeta [(1, wSegPos1), (2, wSegPos2)] 0).segments ∧
    ((wMeta [(1, wSegPos1), (2, wSegPos2)] 0).getCompleteCompactionMeta wCls6 wResult6 9).1
      = wMeta [(1, wSegPos1), (2, wSegPos2)] 0 ∧
    ∃ mods newSeg,
      ((wMeta [(1, wSegPos1), (2, wSegPos2)] 0).getCompleteCompactionMeta wCls6 wResult6 9).2
        = some ([wSegPos1, wSegPos2], mods, newSeg) ∧
      mods = [wSegPos1, wSegPos2].map
        (fun s => { s with state := SegmentState.dropped, droppedAt := 9 }) ∧
      newSeg.state = SegmentState.flushing ∧
      newSeg.compactionFrom = [wSegPos1, wSegPos2].map SegmentInfo.id ∧
      newSeg.dmlPosition ∈ [wSegPos1, wSegPos2].map SegmentInfo.dmlPosition ∧
      ∀ s ∈ [wSegPos1, wSegPos2],
        optTimestamp newSeg.dmlPosition ≤ optTimestamp s.dmlPosition := by
  have hwf : SegmentsWF (wMeta [(1, wSegPos1), (2, wSegPos2)] 0).segments :=
    ⟨by decide, by decide⟩
  have h := C6_getCompleteCompactionMeta (wMeta [(1, wSegPos1), (2, wSegPos2)] 0)
    wCls6 wResult6 9 hwf
  refine ⟨hwf, h.1, ?_⟩
  refine ⟨_, _, rfl, ?_⟩
  have hc := h.2 [wSegPos1, wSegPos2] _ _ rfl
  exact ⟨hc.1, hc.2.2.1, hc.2.2.2.1, (hc.2.2.2.2.2.1 (by decide)).1,
    (hc.2.2.2.2.2.1 (by decide)).2⟩


/-- C4 witness: on a concrete catalog holding one growing segment of channel
"ch" and enough fuel for both persists, a successful drop call leaves the
segment Dropped in memory and in the store, and the follow-up call is a no-op. -/
theorem C4_witness :
    SegmentsWF (wMeta [(1, wSegBase)] 4).segments ∧
    (∃ s', ((wMeta [(1, wSegBase)] 4).updateDropChannelSegmentInfo "ch" []).1.segments.getSegment 1
        = some s' ∧ s'.state = SegmentState.dropped) ∧
    (∃ s', alookup ((wMeta [(1, wSegBase)] 4).updateDropChannelSegmentInfo "ch" []).1.kv.segs 1
        = some s' ∧ s'.state = SegmentState.dropped) ∧
    ((((wMeta [(1, wSegBase)] 4).updateDropChannelSegmentInfo "ch"
          []).1.updateDropChannelSegmentInfo "ch" []).2 = none ∧
     (((wMeta [(1, wSegBase)] 4).updateDropChannelSegmentInfo "ch"
          []).1.updateDropChannelSegmentInfo "ch" []).1.segments
       = ((wMeta [(1, wSegBase)] 4).updateDropChannelSegmentInfo "ch" []).1.segments ∧
     (((wMeta [(1, wSegBase)] 4).updateDropChannelSegmentInfo "ch"
          []).1.updateDropChannelSegmentInfo "ch" []).1.kv
       = ((wMeta [(1, wSegBase)] 4).updateDropChannelSegmentInfo "ch" []).1.kv) := by
  have hwf : SegmentsWF (wMeta [(1, wSegBase)] 4).segments := ⟨by decide, by decide⟩
  have h := C4_updateDropChannel (wMeta [(1, wSegBase)] 4) "ch" [] hwf
  refine ⟨hwf, ?_, ?_, ?_⟩
  · exact h.1 rfl 1 wSegBase rfl rfl
  · exact h.2.1 (by decide) (by decide) 1 wSegBase rfl rfl
  · exact h.2.2 rfl (by decide)

end DataCoord

-- THEOREMS_END

end MilvusModel
